import Mathlib

/-!
Verification of the runtime core of the SDP-202X arcade-shooter repository.

Shallow embedding of the entity lifecycle state machine
(`src/entities/base_entity.py`, `src/entities/entity_state.py`), the
collision hitbox (`src/systems/collision/collision_hitbox.py`), the spatial
hash collision manager (`src/systems/collision/collision_manager.py`), the
phase/wave scheduler (`src/systems/level/level_manager.py`), the object
pool / spawn manager (`src/systems/level/spawn_manager.py`), the bullet
manager (`src/systems/combat/bullet_manager.py`) and the formation pattern
generator (`src/systems/level/pattern_registry.py`).

Conventions: Python ints are modelled as `Int`, Python floats as `Rat`
(the code only ever produces exact decimal values on the paths verified
here), Python `//` as `Int.fdiv` (floor division), and the truncation that
`int(...)` / pygame rect attribute assignment performs as `pyTrunc`.
Entities are identified by their `id(...)`, modelled as a natural number.
Logging calls are fire-and-forget externals and are not modelled.
-/

set_option linter.unreachableTactic false
set_option linter.unusedTactic false

namespace SDP

/-! ## Lifecycle state (`entity_state.py`, class `LifecycleState`) -/

/-- `LifecycleState`: ALIVE = 0, DYING = 1, DEAD = 2 (an `IntEnum`). -/
inductive Life where
  | alive
  | dying
  | dead
  deriving DecidableEq, Repr

/-- The numeric value of the `IntEnum` member. -/
def Life.toNat : Life → Nat
  | .alive => 0
  | .dying => 1
  | .dead => 2

/-- Numeric value of `LifecycleState.DEAD`, used in `< DEAD` / `>= DEAD`
comparisons throughout the code. -/
def DEADv : Nat := 2

/-- Numeric value of `InteractionState.INTANGIBLE` (`player_state.py`). -/
def INTANGIBLEv : Nat := 2

/-! ## `BaseEntity.mark_dead` (`base_entity.py`, lines 189-210) -/

/-- `mark_dead(immediate)`: returns the new `death_state`.

```
if self.death_state == LifecycleState.DEAD: return
if immediate or self.death_state == LifecycleState.DYING:
    self.death_state = LifecycleState.DEAD
else:
    self.death_state = LifecycleState.DYING
```
-/
def mark_dead (st : Life) (immediate : Bool) : Life :=
  if st = Life.dead then st
  else if immediate || st = Life.dying then Life.dead
  else Life.dying

/-! ## `pattern_line` (`pattern_registry.py`, lines 73-86)

```
def pattern_line(count, width, y_offset=-100, spacing=None, **_):
    if spacing is None:
        spacing = width // (count + 1)
    return [(spacing * (i + 1), y_offset) for i in range(count)]
```
All call sites of interest pass ints, so `width // (count + 1)` is Python
floor division on ints. -/

def pattern_line (count : Nat) (width : Int) (y_offset : Int := -100)
    (spacing : Option Int := none) : List (Int × Int) :=
  let spacing := match spacing with
    | none => Int.fdiv width (count + 1)
    | some s => s
  (List.range count).map (fun i => (spacing * (i + 1), y_offset))

/-! ## pygame rectangles

pygame `Rect` stores integer `x, y, w, h`; `centerx = x + w // 2`
(arithmetic shift, i.e. floor), and assigning a float to a rect attribute
truncates it toward zero. -/

structure PyRect where
  x : Int
  y : Int
  w : Int
  h : Int
  deriving DecidableEq, Repr

def PyRect.left (r : PyRect) : Int := r.x
def PyRect.right (r : PyRect) : Int := r.x + r.w
def PyRect.top (r : PyRect) : Int := r.y
def PyRect.bottom (r : PyRect) : Int := r.y + r.h
def PyRect.centerx (r : PyRect) : Int := r.x + Int.fdiv r.w 2
def PyRect.centery (r : PyRect) : Int := r.y + Int.fdiv r.h 2

/-- `rect.size = (w, h)`: keeps the topleft corner. -/
def PyRect.setSize (r : PyRect) (w h : Int) : PyRect :=
  { r with w := w, h := h }

/-- `rect.center = (cx, cy)` with integer arguments. -/
def PyRect.setCenter (r : PyRect) (cx cy : Int) : PyRect :=
  { r with x := cx - Int.fdiv r.w 2, y := cy - Int.fdiv r.h 2 }

/-- Python `int(...)` / pygame float-to-int attribute coercion:
truncation toward zero. -/
def pyTrunc (q : Rat) : Int := Int.tdiv q.num q.den

/-- `rect.center = (cx, cy)` with float arguments (pygame truncates). -/
def PyRect.setCenterF (r : PyRect) (cx cy : Rat) : PyRect :=
  r.setCenter (pyTrunc cx) (pyTrunc cy)

/-- pygame `a.colliderect(b)` (axis-aligned strict overlap test). -/
def colliderect (a b : PyRect) : Bool :=
  decide (a.left < b.right) && decide (a.right > b.left) &&
    decide (a.top < b.bottom) && decide (a.bottom > b.top)

/-! ## `CollisionHitbox` (`collision_hitbox.py`)

Fields tracked: `scale`, `offset`, `rect`, `active`, `_manual_size`,
`_size_cache`.  The owner is passed explicitly as its current rect (the
only owner data these methods read). -/

structure CollisionHitbox where
  scale : Rat
  offset : Rat × Rat
  rect : PyRect
  active : Bool
  manual_size : Bool
  size_cache : Option (Int × Int)
  deriving DecidableEq, Repr

namespace CollisionHitbox

/-- `set_size(width, height)` (`collision_hitbox.py`, lines 127-147):

```
if width <= 0 or height <= 0:
    DebugLogger.warn(...); return
self._manual_size = True
self.rect.size = (width, height)
self._size_cache = (width, height)
self.rect.center = (self.owner.rect.centerx + self.offset.x,
                    self.owner.rect.centery + self.offset.y)
```
-/
def set_size (hb : CollisionHitbox) (owner : PyRect) (width height : Int) :
    CollisionHitbox :=
  if width ≤ 0 ∨ height ≤ 0 then hb
  else
    { hb with
      manual_size := true
      size_cache := some (width, height)
      rect := ((hb.rect.setSize width height).setCenterF
        ((owner.centerx : Rat) + hb.offset.1)
        ((owner.centery : Rat) + hb.offset.2)) }

/-- `set_scale(scale)` (`collision_hitbox.py`, lines 165-189):

```
if scale <= 0:
    DebugLogger.warn(...); return
self._manual_size = False
self.scale = scale
rect = self.owner.rect
scaled_w, scaled_h = int(rect.width * scale), int(rect.height * scale)
self.rect.size = (scaled_w, scaled_h)
self._size_cache = (scaled_w, scaled_h)
self.rect.center = (rect.centerx + self.offset.x, rect.centery + self.offset.y)
```
(the `hasattr(self.owner, "rect")` guard always holds for entities built
from `BaseEntity`, whose `__init__` always sets `rect`). -/
def set_scale (hb : CollisionHitbox) (owner : PyRect) (scale : Rat) :
    CollisionHitbox :=
  if scale ≤ 0 then hb
  else
    let scaled_w := pyTrunc ((owner.w : Rat) * scale)
    let scaled_h := pyTrunc ((owner.h : Rat) * scale)
    { hb with
      manual_size := false
      scale := scale
      size_cache := some (scaled_w, scaled_h)
      rect := ((hb.rect.setSize scaled_w scaled_h).setCenterF
        ((owner.centerx : Rat) + hb.offset.1)
        ((owner.centery : Rat) + hb.offset.2)) }

end CollisionHitbox

/-! ## Spatial hash collision manager (`collision_manager.py`)

Entities are identified by `id(entity)`, modelled as `Nat`.  The per-entity
attributes read by `detect` — `death_state`, `collision_tag`, the
interaction `state` (`getattr(e, "state", 0)`), the registered hitbox, and
whether `on_collision(other)` raises — are collected in an environment.
`on_collision` bodies are otherwise opaque callbacks. -/

structure Env where
  deathState : Nat → Life
  tag : Nat → String
  istate : Nat → Nat
  hitbox : Nat → Option CollisionHitbox
  raisesOn : Nat → Nat → Bool

/-- The default collision rule set (`CollisionManager.__init__`). -/
def rules : List (String × String) :=
  [("player", "enemy"), ("player_bullet", "enemy"),
   ("enemy_bullet", "player"), ("player_bullet", "enemy_bullet")]

/-- `CollisionManager.NEIGHBOR_OFFSETS`. -/
def NEIGHBOR_OFFSETS : List (Int × Int) :=
  [(0, 0), (1, 0), (-1, 0), (0, 1), (0, -1),
   (1, 1), (-1, 1), (1, -1), (-1, -1)]

/-- The spatial hash: a Python dict `{cell: [objects]}` in insertion order. -/
abbrev Grid := List ((Int × Int) × List Nat)

/-- `grid.setdefault(cell, []).append(obj)`. -/
def gridInsert (g : Grid) (c : Int × Int) (o : Nat) : Grid :=
  match g with
  | [] => [(c, [o])]
  | (c', l) :: rest =>
    if c = c' then (c', l ++ [o]) :: rest else (c', l) :: gridInsert rest c o

/-- Dict lookup `grid.get(cell)`. -/
def glookup (g : Grid) (c : Int × Int) : Option (List Nat) :=
  match g with
  | [] => none
  | (c', l) :: rest => if c = c' then some l else glookup rest c

/-- Python `range(a, b + 1)` over ints. -/
def intRange (a b : Int) : List Int :=
  (List.range (b - a + 1).toNat).map (fun (i : Nat) => a + (i : Int))

/-- The grid cells covered by a rect (`_add_to_grid`, lines 150-158):
`cx` runs over `range(left // CELL, right // CELL + 1)`, `cy` over
`range(top // CELL, bottom // CELL + 1)`. -/
def cellRange (cs : Int) (r : PyRect) : List (Int × Int) :=
  (intRange (Int.fdiv r.left cs) (Int.fdiv r.right cs)).flatMap (fun cx =>
    (intRange (Int.fdiv r.top cs) (Int.fdiv r.bottom cs)).map (fun cy => (cx, cy)))

/-- `_add_to_grid(grid, obj)`: no-op when the hitbox lookup misses. -/
def addToGrid (env : Env) (cs : Int) (g : Grid) (o : Nat) : Grid :=
  match env.hitbox o with
  | none => g
  | some hb => (cellRange cs hb.rect).foldl (fun g c => gridInsert g c o) g

def buildGrid (env : Env) (cs : Int) (objs : List Nat) : Grid :=
  objs.foldl (addToGrid env cs) []

/-- `tuple(sorted((id(a), id(b))))`. -/
def pairKey (a b : Nat) : Nat × Nat := (min a b, max a b)

/-- Accumulated state of one `detect` pass: the seen-pairs set, the
returned collision list, and the log of `on_collision` invocations
(`(receiver, argument)`; an invocation that raises is still recorded,
since the call was made). -/
structure DState where
  seen : List (Nat × Nat)
  collisions : List (Nat × Nat)
  callLog : List (Nat × Nat)
  deriving DecidableEq, Repr

/-- The body of the two innermost loops of `detect`
(`collision_manager.py`, lines 226-280) for one candidate pair `(a, b)`,
with `a` drawn from the current cell and `b` from the neighbor cell.
The per-`a` hitbox guard is hoisted into the pair step unchanged: it does
not depend on `b`, so checking it per pair is equivalent to checking it
once per `a`.  The `hasattr(_, "on_collision")` guards always hold for
`BaseEntity` subclasses. -/
def detectStep (env : Env) (s : DState) (p : Nat × Nat) : DState :=
  match env.hitbox p.1 with
  | none => s
  | some ahb =>
    if ¬ ahb.active then s
    else if p.1 = p.2 then s
    else
      match env.hitbox p.2 with
      | none => s
      | some bhb =>
        if ¬ bhb.active then s
        else if pairKey p.1 p.2 ∈ s.seen then s
        else
          let s1 : DState := { s with seen := pairKey p.1 p.2 :: s.seen }
          if (env.deathState p.1).toNat ≥ DEADv ∨ (env.deathState p.2).toNat ≥ DEADv then s1
          else if (env.tag p.1, env.tag p.2) ∉ rules ∧ (env.tag p.2, env.tag p.1) ∉ rules then s1
          else if env.istate p.1 ≥ INTANGIBLEv ∨ env.istate p.2 ≥ INTANGIBLEv then s1
          else if colliderect ahb.rect bhb.rect then
            let s2 : DState := { s1 with
              collisions := s1.collisions ++ [(p.1, p.2)]
              callLog := s1.callLog ++ [(p.1, p.2)] }
            if env.raisesOn p.1 p.2 then s2
            else { s2 with callLog := s2.callLog ++ [(p.2, p.1)] }
          else s1

/-- The candidate-pair stream of `detect`: for each grid entry, for each
of the nine neighbor offsets, every `(a, b)` with `a` in the cell's list
and `b` in the neighbor's list (`collision_manager.py`, lines 219-231).
An absent or empty neighbor contributes nothing (`if not neighbor_objs`). -/
def occurrences (g : Grid) : List (Nat × Nat) :=
  g.flatMap (fun e =>
    NEIGHBOR_OFFSETS.flatMap (fun d =>
      match glookup g (e.1.1 + d.1, e.1.2 + d.2) with
      | none => []
      | some nobjs => e.2.flatMap (fun a => nobjs.map (fun b => (a, b)))))

/-- The pre-filtered object list `detect` inserts into the grid, in
insertion order: the player (if not dead), then the spawn manager's
non-dead entities (skipping the player object itself), then the bullet
manager's non-dead bullets. -/
def detectObjects (env : Env) (player : Nat) (entities bullets : List Nat) :
    List Nat :=
  let active_bullets := bullets.filter (fun b => (env.deathState b).toNat < DEADv)
  let active_entities := entities.filter (fun e => (env.deathState e).toNat < DEADv)
  let pl : Option Nat :=
    if (env.deathState player).toNat < DEADv then some player else none
  (match pl with | some p => [p] | none => []) ++
    active_entities.filter (fun e => match pl with | some p => e ≠ p | none => true) ++
    active_bullets

/-- `CollisionManager.detect` (`collision_manager.py`, lines 163-281). -/
def detect (env : Env) (player : Nat) (entities bullets : List Nat) : DState :=
  let active_bullets := bullets.filter (fun b => (env.deathState b).toNat < DEADv)
  let active_entities := entities.filter (fun e => (env.deathState e).toNat < DEADv)
  let pl : Option Nat :=
    if (env.deathState player).toNat < DEADv then some player else none
  let total := active_bullets.length + active_entities.length +
    (match pl with | some _ => 1 | none => 0)
  if total = 0 then ⟨[], [], []⟩
  else
    let cs : Int := if total > 800 then 48 else if total < 100 then 96 else 64
    let grid := buildGrid env cs (detectObjects env player entities bullets)
    (occurrences grid).foldl (detectStep env) ⟨[], [], []⟩

/-! ### Basic lemmas: floor division, ranges, rectangles, pair keys -/

theorem fdiv_mono_left {a b c : Int} (h : a ≤ b) (hc : 0 < c) :
    a.fdiv c ≤ b.fdiv c := by
  rw [Int.fdiv_eq_ediv _ (by omega), Int.fdiv_eq_ediv _ (by omega)]
  exact Int.ediv_le_ediv hc h

theorem mem_intRange {a b x : Int} : x ∈ intRange a b ↔ a ≤ x ∧ x ≤ b := by
  simp only [intRange, List.mem_map, List.mem_range]
  constructor
  · rintro ⟨i, hi, rfl⟩
    constructor <;> omega
  · rintro ⟨h1, h2⟩
    exact ⟨(x - a).toNat, by omega, by omega⟩

theorem mem_cellRange {cs : Int} {r : PyRect} {p : Int × Int} :
    p ∈ cellRange cs r ↔
      (Int.fdiv r.left cs ≤ p.1 ∧ p.1 ≤ Int.fdiv r.right cs ∧
       Int.fdiv r.top cs ≤ p.2 ∧ p.2 ≤ Int.fdiv r.bottom cs) := by
  obtain ⟨px, py⟩ := p
  simp only [cellRange, List.mem_flatMap, List.mem_map, mem_intRange]
  constructor
  · rintro ⟨cx, hcx, cy, hcy, heq⟩
    obtain ⟨rfl, rfl⟩ : cx = px ∧ cy = py := by
      simpa [Prod.ext_iff] using heq
    exact ⟨hcx.1, hcx.2, hcy.1, hcy.2⟩
  · rintro ⟨h1, h2, h3, h4⟩
    exact ⟨px, ⟨h1, h2⟩, py, ⟨h3, h4⟩, rfl⟩

theorem colliderect_iff {a b : PyRect} :
    colliderect a b = true ↔
      (a.left < b.right ∧ b.left < a.right ∧ a.top < b.bottom ∧ b.top < a.bottom) := by
  simp only [colliderect, Bool.and_eq_true, decide_eq_true_eq, gt_iff_lt]
  tauto

theorem colliderect_comm {a b : PyRect} (h : colliderect a b = true) :
    colliderect b a = true := by
  rw [colliderect_iff] at h ⊢
  tauto

/-- Two overlapping rects with nonnegative sizes share at least one grid
cell: both rect cell ranges contain the cell of
`(max left left, max top top)`. -/
theorem cellRange_overlap {cs : Int} (hcs : 0 < cs) {ra rb : PyRect}
    (hwa : 0 ≤ ra.w) (hha : 0 ≤ ra.h) (hwb : 0 ≤ rb.w) (hhb : 0 ≤ rb.h)
    (hov : colliderect ra rb = true) :
    ∃ c, c ∈ cellRange cs ra ∧ c ∈ cellRange cs rb := by
  rw [colliderect_iff] at hov
  obtain ⟨h1, h2, h3, h4⟩ := hov
  refine ⟨(Int.fdiv (max ra.left rb.left) cs, Int.fdiv (max ra.top rb.top) cs), ?_, ?_⟩ <;>
    rw [mem_cellRange] <;>
    refine ⟨fdiv_mono_left (by omega) hcs, fdiv_mono_left ?_ hcs,
      fdiv_mono_left (by omega) hcs, fdiv_mono_left ?_ hcs⟩ <;>
    simp only [PyRect.left, PyRect.right, PyRect.top, PyRect.bottom] at * <;>
    omega

theorem pairKey_comm (a b : Nat) : pairKey a b = pairKey b a := by
  simp [pairKey, Nat.min_comm, Nat.max_comm]

theorem pairKey_eq_iff {a b A B : Nat} :
    pairKey a b = pairKey A B ↔ ((a = A ∧ b = B) ∨ (a = B ∧ b = A)) := by
  simp only [pairKey, Prod.mk.injEq]
  omega

/-! ### Grid construction lemmas -/

theorem glookup_gridInsert (g : Grid) (c : Int × Int) (o : Nat) (c' : Int × Int) :
    glookup (gridInsert g c o) c' =
      if c' = c then some (((glookup g c).getD []) ++ [o]) else glookup g c' := by
  induction g with
  | nil => by_cases h : c' = c <;> simp [gridInsert, glookup, h]
  | cons e rest ih =>
    obtain ⟨ck, l⟩ := e
    by_cases h1 : c = ck
    · subst h1
      by_cases h2 : c' = c <;> simp [gridInsert, glookup, h2]
    · have hg : gridInsert ((ck, l) :: rest) c o = (ck, l) :: gridInsert rest c o := by
        simp [gridInsert, h1]
      rw [hg]
      by_cases h2 : c' = ck
      · subst h2
        have h1' : ¬ c' = c := fun h => h1 h.symm
        simp [glookup, h1']
      · simp only [glookup, if_neg h2, ih]
        by_cases h3 : c' = c
        · subst h3
          simp [glookup, h1]
        · simp [glookup, h2, h3]

theorem mem_glookup_gridInsert_of_mem {g : Grid} {c : Int × Int} {o' : Nat}
    (c2 : Int × Int) (o : Nat) (h : o' ∈ (glookup g c).getD []) :
    o' ∈ (glookup (gridInsert g c2 o) c).getD [] := by
  rw [glookup_gridInsert]
  by_cases hc : c = c2
  · subst hc
    simp only [if_pos rfl, if_true, eq_self_iff_true, Option.getD_some, List.mem_append]
    exact Or.inl h
  · rwa [if_neg hc]

theorem self_mem_glookup_gridInsert (g : Grid) (c : Int × Int) (o : Nat) :
    o ∈ (glookup (gridInsert g c o) c).getD [] := by
  rw [glookup_gridInsert]
  simp

theorem mem_glookup_foldl_gridInsert_of_mem (cells : List (Int × Int)) (g : Grid)
    (o : Nat) {o' : Nat} {c : Int × Int} (h : o' ∈ (glookup g c).getD []) :
    o' ∈ (glookup (cells.foldl (fun g2 c2 => gridInsert g2 c2 o) g) c).getD [] := by
  induction cells generalizing g with
  | nil => exact h
  | cons c2 rest ih => exact ih _ (mem_glookup_gridInsert_of_mem c2 o h)

theorem mem_glookup_foldl_gridInsert_self (cells : List (Int × Int)) (g : Grid)
    (o : Nat) {c : Int × Int} (hc : c ∈ cells) :
    o ∈ (glookup (cells.foldl (fun g2 c2 => gridInsert g2 c2 o) g) c).getD [] := by
  induction cells generalizing g with
  | nil => cases hc
  | cons c2 rest ih =>
    rcases List.mem_cons.mp hc with rfl | hmem
    · exact mem_glookup_foldl_gridInsert_of_mem rest _ o
        (self_mem_glookup_gridInsert g c o)
    · exact ih _ hmem

theorem mem_glookup_addToGrid_of_mem (env : Env) (cs : Int) (g : Grid) (o : Nat)
    {o' : Nat} {c : Int × Int} (h : o' ∈ (glookup g c).getD []) :
    o' ∈ (glookup (addToGrid env cs g o) c).getD [] := by
  unfold addToGrid
  cases env.hitbox o with
  | none => exact h
  | some hb => exact mem_glookup_foldl_gridInsert_of_mem _ g o h

theorem mem_glookup_addToGrid_self (env : Env) (cs : Int) (g : Grid) {o : Nat}
    {hb : CollisionHitbox} (hhb : env.hitbox o = some hb) {c : Int × Int}
    (hc : c ∈ cellRange cs hb.rect) :
    o ∈ (glookup (addToGrid env cs g o) c).getD [] := by
  unfold addToGrid
  rw [hhb]
  exact mem_glookup_foldl_gridInsert_self _ g o hc

theorem mem_glookup_foldl_addToGrid_of_mem (env : Env) (cs : Int)
    (objs : List Nat) (g : Grid) {o' : Nat} {c : Int × Int}
    (h : o' ∈ (glookup g c).getD []) :
    o' ∈ (glookup (objs.foldl (addToGrid env cs) g) c).getD [] := by
  induction objs generalizing g with
  | nil => exact h
  | cons a rest ih => exact ih _ (mem_glookup_addToGrid_of_mem env cs g a h)

theorem mem_glookup_buildGrid (env : Env) (cs : Int) {objs : List Nat} {o : Nat}
    {hb : CollisionHitbox} (ho : o ∈ objs) (hhb : env.hitbox o = some hb)
    {c : Int × Int} (hc : c ∈ cellRange cs hb.rect) :
    o ∈ (glookup (buildGrid env cs objs) c).getD [] := by
  unfold buildGrid
  have aux : ∀ (l : List Nat) (g : Grid), o ∈ l →
      o ∈ (glookup (l.foldl (addToGrid env cs) g) c).getD [] := by
    intro l
    induction l with
    | nil => intro g h; cases h
    | cons a rest ih =>
      intro g h
      rcases List.mem_cons.mp h with rfl | hmem
      · exact mem_glookup_foldl_addToGrid_of_mem env cs rest _
          (mem_glookup_addToGrid_self env cs g hhb hc)
      · exact ih _ hmem
  exact aux objs [] ho

theorem glookup_entry_mem {g : Grid} {c : Int × Int} {l : List Nat}
    (h : glookup g c = some l) : (c, l) ∈ g := by
  induction g with
  | nil => cases h
  | cons e rest ih =>
    obtain ⟨ck, lk⟩ := e
    by_cases hc : c = ck
    · subst hc
      simp only [glookup, if_pos rfl, if_true, eq_self_iff_true, Option.some.injEq] at h
      subst h
      exact List.mem_cons_self _ _
    · simp only [glookup, if_neg hc] at h
      exact List.mem_cons_of_mem _ (ih h)

theorem mem_getD_glookup {g : Grid} {c : Int × Int} {x : Nat}
    (h : x ∈ (glookup g c).getD []) :
    ∃ l, glookup g c = some l ∧ x ∈ l := by
  cases hl : glookup g c with
  | none => rw [hl] at h; cases h
  | some l => rw [hl] at h; exact ⟨l, rfl, h⟩

/-- If two objects landed in the same grid cell, the ordered pair `(A, B)`
appears in the candidate stream: the entry for that cell combined with the
`(0, 0)` neighbor offset produces it. -/
theorem pair_mem_occurrences {g : Grid} {A B : Nat} {c : Int × Int}
    (hA : A ∈ (glookup g c).getD []) (hB : B ∈ (glookup g c).getD []) :
    (A, B) ∈ occurrences g := by
  obtain ⟨l, hl, hAl⟩ := mem_getD_glookup hA
  have hBl : B ∈ l := by
    obtain ⟨l2, hl2, hBl2⟩ := mem_getD_glookup hB
    rw [hl] at hl2
    cases hl2
    exact hBl2
  have hentry : (c, l) ∈ g := glookup_entry_mem hl
  unfold occurrences
  rw [List.mem_flatMap]
  refine ⟨(c, l), hentry, ?_⟩
  rw [List.mem_flatMap]
  refine ⟨(0, 0), by simp [NEIGHBOR_OFFSETS], ?_⟩
  have hkey : ((c, l).1.1 + (0 : Int), (c, l).1.2 + (0 : Int)) = c := by
    simp
  rw [hkey, hl]
  simp only [List.mem_flatMap, List.mem_map]
  exact ⟨A, hAl, B, hBl, rfl⟩

/-! ### `detectStep` behavior lemmas -/

theorem detectStep_cases (env : Env) (s : DState) (p : Nat × Nat) :
    (detectStep env s p = s) ∨
    (pairKey p.1 p.2 ∉ s.seen ∧ ∃ tc tl,
       detectStep env s p = { seen := pairKey p.1 p.2 :: s.seen,
                              collisions := s.collisions ++ tc,
                              callLog := s.callLog ++ tl } ∧
       (tc = [] ∧ tl = [] ∨
        tc = [(p.1, p.2)] ∧
          ((env.deathState p.1).toNat < DEADv ∧ (env.deathState p.2).toNat < DEADv) ∧
          (tl = [(p.1, p.2)] ∨ tl = [(p.1, p.2), (p.2, p.1)]))) := by
  unfold detectStep
  cases hh1 : env.hitbox p.1 with
  | none => left; rfl
  | some ahb =>
  dsimp only
  by_cases ha : ¬ ahb.active
  · rw [if_pos ha]; left; rfl
  rw [if_neg ha]
  by_cases hab : p.1 = p.2
  · rw [if_pos hab]; left; rfl
  rw [if_neg hab]
  cases hh2 : env.hitbox p.2 with
  | none => left; rfl
  | some bhb =>
  dsimp only
  by_cases hb : ¬ bhb.active
  · rw [if_pos hb]; left; rfl
  rw [if_neg hb]
  by_cases hseen : pairKey p.1 p.2 ∈ s.seen
  · rw [if_pos hseen]; left; rfl
  rw [if_neg hseen]
  right
  refine ⟨hseen, ?_⟩
  by_cases hdead : (env.deathState p.1).toNat ≥ DEADv ∨ (env.deathState p.2).toNat ≥ DEADv
  · rw [if_pos hdead]
    exact ⟨[], [], by simp only [List.append_nil], Or.inl ⟨rfl, rfl⟩⟩
  rw [if_neg hdead]
  by_cases htag : (env.tag p.1, env.tag p.2) ∉ rules ∧ (env.tag p.2, env.tag p.1) ∉ rules
  · rw [if_pos htag]
    exact ⟨[], [], by simp only [List.append_nil], Or.inl ⟨rfl, rfl⟩⟩
  rw [if_neg htag]
  by_cases hint : env.istate p.1 ≥ INTANGIBLEv ∨ env.istate p.2 ≥ INTANGIBLEv
  · rw [if_pos hint]
    exact ⟨[], [], by simp only [List.append_nil], Or.inl ⟨rfl, rfl⟩⟩
  rw [if_neg hint]
  have hlive : (env.deathState p.1).toNat < DEADv ∧ (env.deathState p.2).toNat < DEADv := by
    constructor <;> omega
  by_cases hov : colliderect ahb.rect bhb.rect = true
  · rw [if_pos hov]
    by_cases hr : env.raisesOn p.1 p.2 = true
    · rw [if_pos hr]
      exact ⟨[(p.1, p.2)], [(p.1, p.2)], rfl, Or.inr ⟨rfl, hlive, Or.inl rfl⟩⟩
    · rw [if_neg hr]
      exact ⟨[(p.1, p.2)], [(p.1, p.2), (p.2, p.1)],
        by simp only [List.append_assoc, List.cons_append, List.nil_append],
        Or.inr ⟨rfl, hlive, Or.inr rfl⟩⟩
  · rw [if_neg hov]
    exact ⟨[], [], by simp only [List.append_nil], Or.inl ⟨rfl, rfl⟩⟩

theorem detectStep_seen_mono (env : Env) (s : DState) (p : Nat × Nat) {k : Nat × Nat}
    (h : k ∈ s.seen) : k ∈ (detectStep env s p).seen := by
  rcases detectStep_cases env s p with heq | ⟨-, tc, tl, heq, -⟩
  · rw [heq]; exact h
  · rw [heq]; exact List.mem_cons_of_mem _ h

theorem detectStep_pair (env : Env) (s : DState) {A B : Nat} (hne : A ≠ B)
    {hA hB : CollisionHitbox}
    (hhA : env.hitbox A = some hA) (hactA : hA.active = true)
    (hhB : env.hitbox B = some hB) (hactB : hB.active = true)
    (hdA : (env.deathState A).toNat < DEADv) (hdB : (env.deathState B).toNat < DEADv)
    (htag : (env.tag A, env.tag B) ∈ rules ∨ (env.tag B, env.tag A) ∈ rules)
    (hiA : env.istate A < INTANGIBLEv) (hiB : env.istate B < INTANGIBLEv)
    (hov : colliderect hA.rect hB.rect = true)
    (p : Nat × Nat) (hp : p = (A, B) ∨ p = (B, A)) :
    (pairKey A B ∈ s.seen → detectStep env s p = s) ∧
    (pairKey A B ∉ s.seen →
       detectStep env s p = DState.mk (pairKey A B :: s.seen) (s.collisions ++ [p])
         (s.callLog ++ (p :: (if env.raisesOn p.1 p.2 then [] else [(p.2, p.1)])))) := by
  have hkey : pairKey p.1 p.2 = pairKey A B := by
    rcases hp with rfl | rfl
    · rfl
    · exact pairKey_comm B A
  have hdead : ¬ ((env.deathState p.1).toNat ≥ DEADv ∨ (env.deathState p.2).toNat ≥ DEADv) := by
    rcases hp with rfl | rfl <;> dsimp only <;> rintro (h | h) <;> omega
  have htag2 : ¬ ((env.tag p.1, env.tag p.2) ∉ rules ∧ (env.tag p.2, env.tag p.1) ∉ rules) := by
    rcases hp with rfl | rfl <;> dsimp only <;> rintro ⟨h1, h2⟩ <;> tauto
  have hint : ¬ (env.istate p.1 ≥ INTANGIBLEv ∨ env.istate p.2 ≥ INTANGIBLEv) := by
    rcases hp with rfl | rfl <;> dsimp only <;> rintro (h | h) <;> omega
  rcases hp with rfl | rfl
  · unfold detectStep
    dsimp only
    rw [hhA]
    dsimp only
    rw [if_neg (not_not_intro hactA), if_neg hne, hhB]
    dsimp only
    rw [if_neg (not_not_intro hactB)]
    constructor
    · intro hseen
      rw [if_pos (by rwa [hkey])]
    · intro hns
      rw [if_neg (by rwa [hkey]), if_neg hdead, if_neg htag2, if_neg hint, if_pos hov]
      by_cases hr : env.raisesOn A B = true
      · simp [hkey, hr]
      · simp only [Bool.not_eq_true] at hr
        simp [hkey, hr, List.append_assoc]
  · unfold detectStep
    dsimp only
    rw [hhB]
    dsimp only
    rw [if_neg (not_not_intro hactB), if_neg (Ne.symm hne), hhA]
    dsimp only
    rw [if_neg (not_not_intro hactA)]
    constructor
    · intro hseen
      rw [if_pos (by rwa [hkey])]
    · intro hns
      rw [if_neg (by rwa [hkey]), if_neg hdead, if_neg htag2, if_neg hint,
        if_pos (colliderect_comm hov)]
      by_cases hr : env.raisesOn B A = true
      · simp [hkey, hr]
      · simp only [Bool.not_eq_true] at hr
        simp [hkey, hr, List.append_assoc]

theorem detectStep_unrelated (env : Env) (s : DState) (p : Nat × Nat) {A B : Nat}
    (hun : ¬ (p = (A, B) ∨ p = (B, A))) :
    ((pairKey A B ∈ (detectStep env s p).seen) ↔ pairKey A B ∈ s.seen) ∧
    (detectStep env s p).collisions.count (A, B) = s.collisions.count (A, B) ∧
    (detectStep env s p).collisions.count (B, A) = s.collisions.count (B, A) ∧
    (detectStep env s p).callLog.count (A, B) = s.callLog.count (A, B) ∧
    (detectStep env s p).callLog.count (B, A) = s.callLog.count (B, A) := by
  have hp1 : p ≠ (A, B) := fun h => hun (Or.inl h)
  have hp2 : p ≠ (B, A) := fun h => hun (Or.inr h)
  have hpp : (p.1, p.2) = p := rfl
  have hs1 : (p.2, p.1) ≠ (A, B) := by
    intro h
    apply hp2
    have h1 : p.2 = A := congrArg Prod.fst h
    have h2 : p.1 = B := congrArg Prod.snd h
    calc p = (p.1, p.2) := rfl
    _ = (B, A) := by rw [h1, h2]
  have hs2 : (p.2, p.1) ≠ (B, A) := by
    intro h
    apply hp1
    have h1 : p.2 = B := congrArg Prod.fst h
    have h2 : p.1 = A := congrArg Prod.snd h
    calc p = (p.1, p.2) := rfl
    _ = (A, B) := by rw [h1, h2]
  have hkey : pairKey p.1 p.2 ≠ pairKey A B := by
    intro h
    rcases pairKey_eq_iff.mp h with ⟨h1, h2⟩ | ⟨h1, h2⟩
    · exact hp1 (by calc p = (p.1, p.2) := rfl
        _ = (A, B) := by rw [h1, h2])
    · exact hp2 (by calc p = (p.1, p.2) := rfl
        _ = (B, A) := by rw [h1, h2])
  rcases detectStep_cases env s p with heq | ⟨hns, tc, tl, heq, htails⟩
  · rw [heq]
    exact ⟨Iff.rfl, rfl, rfl, rfl, rfl⟩
  · rw [heq]
    have hseen : (pairKey A B ∈ pairKey p.1 p.2 :: s.seen) ↔ pairKey A B ∈ s.seen := by
      rw [List.mem_cons]
      constructor
      · rintro (h | h)
        · exact absurd h.symm hkey
        · exact h
      · exact Or.inr
    have hctc1 : tc.count (A, B) = 0 := by
      rcases htails with ⟨rfl, -⟩ | ⟨rfl, -, -⟩
      · rfl
      · simp [List.count_cons, hpp, hp1]
    have hctc2 : tc.count (B, A) = 0 := by
      rcases htails with ⟨rfl, -⟩ | ⟨rfl, -, -⟩
      · rfl
      · simp [List.count_cons, hpp, hp2]
    have hctl1 : tl.count (A, B) = 0 := by
      rcases htails with ⟨-, rfl⟩ | ⟨-, -, rfl | rfl⟩
      · rfl
      · simp [List.count_cons, hpp, hp1]
      · simp [List.count_cons, hpp, hp1, hs1]
    have hctl2 : tl.count (B, A) = 0 := by
      rcases htails with ⟨-, rfl⟩ | ⟨-, -, rfl | rfl⟩
      · rfl
      · simp [List.count_cons, hpp, hp2]
      · simp [List.count_cons, hpp, hp2, hs2]
    refine ⟨hseen, ?_, ?_, ?_, ?_⟩ <;>
      simp [List.count_append, hctc1, hctc2, hctl1, hctl2]

theorem foldl_detectStep_seen_mono (env : Env) (occ : List (Nat × Nat)) (s : DState)
    {k : Nat × Nat} (h : k ∈ s.seen) :
    k ∈ (occ.foldl (detectStep env) s).seen := by
  induction occ generalizing s with
  | nil => exact h
  | cons p rest ih => exact ih _ (detectStep_seen_mono env s p h)

theorem foldl_detectStep_noraise (env : Env) {A B : Nat} {hA hB : CollisionHitbox}
    (hne : A ≠ B)
    (hhA : env.hitbox A = some hA) (hactA : hA.active = true)
    (hhB : env.hitbox B = some hB) (hactB : hB.active = true)
    (hdA : (env.deathState A).toNat < DEADv) (hdB : (env.deathState B).toNat < DEADv)
    (htag : (env.tag A, env.tag B) ∈ rules ∨ (env.tag B, env.tag A) ∈ rules)
    (hiA : env.istate A < INTANGIBLEv) (hiB : env.istate B < INTANGIBLEv)
    (hov : colliderect hA.rect hB.rect = true)
    (hr1 : env.raisesOn A B = false) (hr2 : env.raisesOn B A = false)
    (occ : List (Nat × Nat)) (s : DState)
    (hc : s.collisions.count (A, B) + s.collisions.count (B, A) =
      (if pairKey A B ∈ s.seen then 1 else 0))
    (h1 : s.callLog.count (A, B) = (if pairKey A B ∈ s.seen then 1 else 0))
    (h2 : s.callLog.count (B, A) = (if pairKey A B ∈ s.seen then 1 else 0)) :
    ((occ.foldl (detectStep env) s).collisions.count (A, B) +
        (occ.foldl (detectStep env) s).collisions.count (B, A) =
      (if pairKey A B ∈ (occ.foldl (detectStep env) s).seen then 1 else 0)) ∧
    ((occ.foldl (detectStep env) s).callLog.count (A, B) =
      (if pairKey A B ∈ (occ.foldl (detectStep env) s).seen then 1 else 0)) ∧
    ((occ.foldl (detectStep env) s).callLog.count (B, A) =
      (if pairKey A B ∈ (occ.foldl (detectStep env) s).seen then 1 else 0)) := by
  induction occ generalizing s with
  | nil => exact ⟨hc, h1, h2⟩
  | cons p rest ih =>
    simp only [List.foldl_cons]
    by_cases hrel : p = (A, B) ∨ p = (B, A)
    · obtain ⟨hstep_seen, hstep_new⟩ := detectStep_pair env s hne hhA hactA hhB hactB
        hdA hdB htag hiA hiB hov p hrel
      by_cases hseen : pairKey A B ∈ s.seen
      · simp only [hstep_seen hseen]
        exact ih s hc h1 h2
      · simp only [hstep_new hseen]
        rw [if_neg hseen] at hc h1 h2
        apply ih
        · rcases hrel with rfl | rfl <;>
            simp [List.count_append, List.count_cons, Prod.mk.injEq, hne, Ne.symm hne, hc,
              if_pos (List.mem_cons_self _ _)] <;> omega
        · rcases hrel with rfl | rfl <;>
            simp [List.count_append, List.count_cons, Prod.mk.injEq, hne, Ne.symm hne,
              h1, hr1, hr2, if_pos (List.mem_cons_self _ _)] <;> omega
        · rcases hrel with rfl | rfl <;>
            simp [List.count_append, List.count_cons, Prod.mk.injEq, hne, Ne.symm hne,
              h2, hr1, hr2, if_pos (List.mem_cons_self _ _)] <;> omega
    · obtain ⟨hseq, hc1, hc2, hl1, hl2⟩ := detectStep_unrelated env s p hrel
      have hif : (if pairKey A B ∈ (detectStep env s p).seen then (1 : Nat) else 0) =
          (if pairKey A B ∈ s.seen then 1 else 0) := by
        by_cases h : pairKey A B ∈ s.seen
        · rw [if_pos (hseq.mpr h), if_pos h]
        · rw [if_neg (fun hx => h (hseq.mp hx)), if_neg h]
      apply ih
      · rw [hc1, hc2, hif]; exact hc
      · rw [hl1, hif]; exact h1
      · rw [hl2, hif]; exact h2


theorem detectObjects_total_pos (env : Env) (player : Nat)
    (entities bullets : List Nat)
    (hne : detectObjects env player entities bullets ≠ []) :
    ((bullets.filter (fun b => (env.deathState b).toNat < DEADv)).length +
      (entities.filter (fun e => (env.deathState e).toNat < DEADv)).length +
      (match (if (env.deathState player).toNat < DEADv then some player else none) with
       | some _ => 1 | none => 0)) ≠ 0 := by
  intro h
  apply hne
  unfold detectObjects
  by_cases hp : (env.deathState player).toNat < DEADv
  · rw [if_pos hp] at h
    dsimp only at h
    omega
  · rw [if_neg hp] at h ⊢
    have hb : bullets.filter (fun b => (env.deathState b).toNat < DEADv) = [] :=
      List.length_eq_zero.mp (by omega)
    have he : entities.filter (fun e => (env.deathState e).toNat < DEADv) = [] :=
      List.length_eq_zero.mp (by omega)
    simp [hb, he]

theorem detect_eq_foldl (env : Env) (player : Nat) (entities bullets : List Nat)
    (hne : detectObjects env player entities bullets ≠ []) :
    ∃ cs : Int, 0 < cs ∧
      detect env player entities bullets =
        (occurrences (buildGrid env cs (detectObjects env player entities bullets))).foldl
          (detectStep env) ⟨[], [], []⟩ := by
  have htot := detectObjects_total_pos env player entities bullets hne
  unfold detect
  dsimp only
  rw [if_neg htot]
  refine ⟨_, ?_, rfl⟩
  split_ifs <;> norm_num

theorem foldl_detectStep_bothraise (env : Env) {A B : Nat} {hA hB : CollisionHitbox}
    (hne : A ≠ B)
    (hhA : env.hitbox A = some hA) (hactA : hA.active = true)
    (hhB : env.hitbox B = some hB) (hactB : hB.active = true)
    (hdA : (env.deathState A).toNat < DEADv) (hdB : (env.deathState B).toNat < DEADv)
    (htag : (env.tag A, env.tag B) ∈ rules ∨ (env.tag B, env.tag A) ∈ rules)
    (hiA : env.istate A < INTANGIBLEv) (hiB : env.istate B < INTANGIBLEv)
    (hov : colliderect hA.rect hB.rect = true)
    (hr1 : env.raisesOn A B = true) (hr2 : env.raisesOn B A = true)
    (occ : List (Nat × Nat)) (s : DState)
    (hc : s.collisions.count (A, B) + s.collisions.count (B, A) =
      (if pairKey A B ∈ s.seen then 1 else 0))
    (h1 : s.callLog.count (A, B) + s.callLog.count (B, A) =
      (if pairKey A B ∈ s.seen then 1 else 0)) :
    ((occ.foldl (detectStep env) s).collisions.count (A, B) +
        (occ.foldl (detectStep env) s).collisions.count (B, A) =
      (if pairKey A B ∈ (occ.foldl (detectStep env) s).seen then 1 else 0)) ∧
    ((occ.foldl (detectStep env) s).callLog.count (A, B) +
        (occ.foldl (detectStep env) s).callLog.count (B, A) =
      (if pairKey A B ∈ (occ.foldl (detectStep env) s).seen then 1 else 0)) := by
  induction occ generalizing s with
  | nil => exact ⟨hc, h1⟩
  | cons p rest ih =>
    simp only [List.foldl_cons]
    by_cases hrel : p = (A, B) ∨ p = (B, A)
    · obtain ⟨hstep_seen, hstep_new⟩ := detectStep_pair env s hne hhA hactA hhB hactB
        hdA hdB htag hiA hiB hov p hrel
      by_cases hseen : pairKey A B ∈ s.seen
      · simp only [hstep_seen hseen]
        exact ih s hc h1
      · simp only [hstep_new hseen]
        rw [if_neg hseen] at hc h1
        apply ih
        · rcases hrel with rfl | rfl <;>
            simp [List.count_append, List.count_cons, Prod.mk.injEq, hne, Ne.symm hne, hc,
              if_pos (List.mem_cons_self _ _)] <;> omega
        · rcases hrel with rfl | rfl <;>
            simp [List.count_append, List.count_cons, Prod.mk.injEq, hne, Ne.symm hne,
              h1, hr1, hr2, if_pos (List.mem_cons_self _ _)] <;> omega
    · obtain ⟨hseq, hc1, hc2, hl1, hl2⟩ := detectStep_unrelated env s p hrel
      have hif : (if pairKey A B ∈ (detectStep env s p).seen then (1 : Nat) else 0) =
          (if pairKey A B ∈ s.seen then 1 else 0) := by
        by_cases h : pairKey A B ∈ s.seen
        · rw [if_pos (hseq.mpr h), if_pos h]
        · rw [if_neg (fun hx => h (hseq.mp hx)), if_neg h]
      apply ih
      · rw [hc1, hc2, hif]; exact hc
      · rw [hl1, hl2, hif]; exact h1

theorem foldl_detectStep_pair_seen (env : Env) {A B : Nat} {hA hB : CollisionHitbox}
    (hne : A ≠ B)
    (hhA : env.hitbox A = some hA) (hactA : hA.active = true)
    (hhB : env.hitbox B = some hB) (hactB : hB.active = true)
    (hdA : (env.deathState A).toNat < DEADv) (hdB : (env.deathState B).toNat < DEADv)
    (htag : (env.tag A, env.tag B) ∈ rules ∨ (env.tag B, env.tag A) ∈ rules)
    (hiA : env.istate A < INTANGIBLEv) (hiB : env.istate B < INTANGIBLEv)
    (hov : colliderect hA.rect hB.rect = true)
    (occ : List (Nat × Nat)) (s : DState) (hoc : (A, B) ∈ occ) :
    pairKey A B ∈ (occ.foldl (detectStep env) s).seen := by
  induction occ generalizing s with
  | nil => cases hoc
  | cons p rest ih =>
    simp only [List.foldl_cons]
    rcases List.mem_cons.mp hoc with heq | hmem
    · obtain ⟨hstep_seen, hstep_new⟩ := detectStep_pair env s hne hhA hactA hhB hactB
        hdA hdB htag hiA hiB hov p (Or.inl heq.symm)
      by_cases hseen : pairKey A B ∈ s.seen
      · simp only [hstep_seen hseen]
        exact foldl_detectStep_seen_mono env rest s hseen
      · simp only [hstep_new hseen]
        exact foldl_detectStep_seen_mono env rest _ (List.mem_cons_self _ _)
    · exact ih _ hmem

theorem detectStep_not_dead (env : Env) (s : DState) (p : Nat × Nat)
    (hc : ∀ q ∈ s.collisions,
      (env.deathState q.1).toNat < DEADv ∧ (env.deathState q.2).toNat < DEADv)
    (hl : ∀ q ∈ s.callLog,
      (env.deathState q.1).toNat < DEADv ∧ (env.deathState q.2).toNat < DEADv) :
    (∀ q ∈ (detectStep env s p).collisions,
      (env.deathState q.1).toNat < DEADv ∧ (env.deathState q.2).toNat < DEADv) ∧
    (∀ q ∈ (detectStep env s p).callLog,
      (env.deathState q.1).toNat < DEADv ∧ (env.deathState q.2).toNat < DEADv) := by
  rcases detectStep_cases env s p with heq | ⟨-, tc, tl, heq, htails⟩
  · rw [heq]
    exact ⟨hc, hl⟩
  · rw [heq]
    have htc : ∀ q ∈ tc,
        (env.deathState q.1).toNat < DEADv ∧ (env.deathState q.2).toNat < DEADv := by
      rcases htails with ⟨rfl, -⟩ | ⟨rfl, hlive, -⟩
      · intro q hq; cases hq
      · intro q hq
        rcases List.mem_singleton.mp hq with rfl
        exact hlive
    have htl : ∀ q ∈ tl,
        (env.deathState q.1).toNat < DEADv ∧ (env.deathState q.2).toNat < DEADv := by
      rcases htails with ⟨-, rfl⟩ | ⟨-, hlive, rfl | rfl⟩
      · intro q hq; cases hq
      · intro q hq
        rcases List.mem_singleton.mp hq with rfl
        exact hlive
      · intro q hq
        rcases List.mem_cons.mp hq with rfl | hq2
        · exact hlive
        · rcases List.mem_singleton.mp hq2 with rfl
          exact ⟨hlive.2, hlive.1⟩
    constructor
    · intro q hq
      rcases List.mem_append.mp hq with h | h
      · exact hc q h
      · exact htc q h
    · intro q hq
      rcases List.mem_append.mp hq with h | h
      · exact hl q h
      · exact htl q h

theorem foldl_detectStep_not_dead (env : Env) (occ : List (Nat × Nat)) (s : DState)
    (hc : ∀ q ∈ s.collisions,
      (env.deathState q.1).toNat < DEADv ∧ (env.deathState q.2).toNat < DEADv)
    (hl : ∀ q ∈ s.callLog,
      (env.deathState q.1).toNat < DEADv ∧ (env.deathState q.2).toNat < DEADv) :
    (∀ q ∈ (occ.foldl (detectStep env) s).collisions,
      (env.deathState q.1).toNat < DEADv ∧ (env.deathState q.2).toNat < DEADv) ∧
    (∀ q ∈ (occ.foldl (detectStep env) s).callLog,
      (env.deathState q.1).toNat < DEADv ∧ (env.deathState q.2).toNat < DEADv) := by
  induction occ generalizing s with
  | nil => exact ⟨hc, hl⟩
  | cons p rest ih =>
    simp only [List.foldl_cons]
    obtain ⟨hc2, hl2⟩ := detectStep_not_dead env s p hc hl
    exact ih _ hc2 hl2

theorem detect_eq_cases (env : Env) (player : Nat) (entities bullets : List Nat) :
    detect env player entities bullets = ⟨[], [], []⟩ ∨
    ∃ cs : Int, 0 < cs ∧
      detect env player entities bullets =
        (occurrences (buildGrid env cs (detectObjects env player entities bullets))).foldl
          (detectStep env) ⟨[], [], []⟩ := by
  unfold detect
  dsimp only
  by_cases htot : ((bullets.filter (fun b => (env.deathState b).toNat < DEADv)).length +
      (entities.filter (fun e => (env.deathState e).toNat < DEADv)).length +
      (match (if (env.deathState player).toNat < DEADv then some player else none) with
       | some _ => 1 | none => 0)) = 0
  · rw [if_pos htot]
    exact Or.inl rfl
  · rw [if_neg htot]
    refine Or.inr ⟨_, ?_, rfl⟩
    split_ifs <;> norm_num

/-- C6: an entity whose `death_state` is DEAD at the start of the pass never
appears in the returned collision pairs and no `on_collision` call involves
it, even when its stale hitbox rect overlaps another entity's rect: dead
objects are pre-filtered out of the grid, and every fired pair re-checks
`death_state` before reacting. -/
theorem detect_excludes_dead (env : Env) (player : Nat) (entities bullets : List Nat)
    {E : Nat} (hdead : env.deathState E = Life.dead) :
    (∀ q ∈ (detect env player entities bullets).collisions, q.1 ≠ E ∧ q.2 ≠ E) ∧
    (∀ q ∈ (detect env player entities bullets).callLog, q.1 ≠ E ∧ q.2 ≠ E) := by
  have key : ∀ q : Nat × Nat,
      ((env.deathState q.1).toNat < DEADv ∧ (env.deathState q.2).toNat < DEADv) →
      q.1 ≠ E ∧ q.2 ≠ E := by
    rintro ⟨q1, q2⟩ ⟨hq1, hq2⟩
    constructor
    · rintro rfl
      rw [hdead] at hq1
      simp [Life.toNat, DEADv] at hq1
    · rintro rfl
      rw [hdead] at hq2
      simp [Life.toNat, DEADv] at hq2
  rcases detect_eq_cases env player entities bullets with heq | ⟨cs, hcs, heq⟩
  · rw [heq]
    exact ⟨by rintro q ⟨⟩, by rintro q ⟨⟩⟩
  · rw [heq]
    obtain ⟨hcol, hlog⟩ := foldl_detectStep_not_dead env _ ⟨[], [], []⟩
      (by rintro q ⟨⟩) (by rintro q ⟨⟩)
    exact ⟨fun q hq => key q (hcol q hq), fun q hq => key q (hlog q hq)⟩


/-- C10: the two reaction calls of a confirmed pair share one `try` block:
when `a.on_collision(b)` raises (here: both orientations of the pair raise,
so this holds whichever orientation the grid iteration fires), the pair is
still appended to the returned collision list exactly once, exactly one of
the two `on_collision` invocations happens — the partner call is skipped —
and the pass continues: an unrelated eligible pair `(C, D)` with
non-raising handlers still gets both of its reaction calls exactly once in
the same `detect` call. -/
theorem detect_reaction_exception_isolated (env : Env) (player : Nat)
    (entities bullets : List Nat)
    {A B : Nat} {hA hB : CollisionHitbox}
    (hmemA : A ∈ detectObjects env player entities bullets)
    (hmemB : B ∈ detectObjects env player entities bullets)
    (hne : A ≠ B)
    (hhA : env.hitbox A = some hA) (hactA : hA.active = true)
    (hhB : env.hitbox B = some hB) (hactB : hB.active = true)
    (hdA : (env.deathState A).toNat < DEADv) (hdB : (env.deathState B).toNat < DEADv)
    (htag : (env.tag A, env.tag B) ∈ rules ∨ (env.tag B, env.tag A) ∈ rules)
    (hiA : env.istate A < INTANGIBLEv) (hiB : env.istate B < INTANGIBLEv)
    (hwA : 0 ≤ hA.rect.w) (hhgtA : 0 ≤ hA.rect.h)
    (hwB : 0 ≤ hB.rect.w) (hhgtB : 0 ≤ hB.rect.h)
    (hov : colliderect hA.rect hB.rect = true)
    (hr1 : env.raisesOn A B = true) (hr2 : env.raisesOn B A = true)
    {C D : Nat} {hC hD : CollisionHitbox}
    (hmemC : C ∈ detectObjects env player entities bullets)
    (hmemD : D ∈ detectObjects env player entities bullets)
    (hneCD : C ≠ D)
    (hhC : env.hitbox C = some hC) (hactC : hC.active = true)
    (hhD : env.hitbox D = some hD) (hactD : hD.active = true)
    (hdC : (env.deathState C).toNat < DEADv) (hdD : (env.deathState D).toNat < DEADv)
    (htagCD : (env.tag C, env.tag D) ∈ rules ∨ (env.tag D, env.tag C) ∈ rules)
    (hiC : env.istate C < INTANGIBLEv) (hiD : env.istate D < INTANGIBLEv)
    (hwC : 0 ≤ hC.rect.w) (hhgtC : 0 ≤ hC.rect.h)
    (hwD : 0 ≤ hD.rect.w) (hhgtD : 0 ≤ hD.rect.h)
    (hovCD : colliderect hC.rect hD.rect = true)
    (hr3 : env.raisesOn C D = false) (hr4 : env.raisesOn D C = false) :
    ((detect env player entities bullets).collisions.count (A, B) +
      (detect env player entities bullets).collisions.count (B, A) = 1) ∧
    ((detect env player entities bullets).callLog.count (A, B) +
      (detect env player entities bullets).callLog.count (B, A) = 1) ∧
    ((detect env player entities bullets).callLog.count (C, D) = 1) ∧
    ((detect env player entities bullets).callLog.count (D, C) = 1) := by
  obtain ⟨cs, hcs, heq⟩ :=
    detect_eq_foldl env player entities bullets (List.ne_nil_of_mem hmemA)
  rw [heq]
  obtain ⟨c, hcA, hcB⟩ := cellRange_overlap hcs hwA hhgtA hwB hhgtB hov
  have hocc : (A, B) ∈ occurrences
      (buildGrid env cs (detectObjects env player entities bullets)) :=
    pair_mem_occurrences (mem_glookup_buildGrid env cs hmemA hhA hcA)
      (mem_glookup_buildGrid env cs hmemB hhB hcB)
  obtain ⟨c2, hcC, hcD⟩ := cellRange_overlap hcs hwC hhgtC hwD hhgtD hovCD
  have hoccCD : (C, D) ∈ occurrences
      (buildGrid env cs (detectObjects env player entities bullets)) :=
    pair_mem_occurrences (mem_glookup_buildGrid env cs hmemC hhC hcC)
      (mem_glookup_buildGrid env cs hmemD hhD hcD)
  have hseen := foldl_detectStep_pair_seen env hne hhA hactA hhB hactB hdA hdB
    htag hiA hiB hov _ ⟨[], [], []⟩ hocc
  have hseenCD := foldl_detectStep_pair_seen env hneCD hhC hactC hhD hactD hdC hdD
    htagCD hiC hiD hovCD _ ⟨[], [], []⟩ hoccCD
  obtain ⟨hcol, hlog⟩ := foldl_detectStep_bothraise env hne hhA hactA hhB hactB
    hdA hdB htag hiA hiB hov hr1 hr2
    (occurrences (buildGrid env cs (detectObjects env player entities bullets)))
    ⟨[], [], []⟩ (by simp) (by simp)
  obtain ⟨-, hl3, hl4⟩ := foldl_detectStep_noraise env hneCD hhC hactC hhD hactD
    hdC hdD htagCD hiC hiD hovCD hr3 hr4
    (occurrences (buildGrid env cs (detectObjects env player entities bullets)))
    ⟨[], [], []⟩ (by simp) (by simp) (by simp)
  rw [if_pos hseen] at hcol hlog
  rw [if_pos hseenCD] at hl3 hl4
  exact ⟨hcol, hlog, hl3, hl4⟩

/-- A two-object scene whose hitboxes straddle the x = 96 grid cell edge
(cell size is 96 when fewer than 100 objects are active). -/
def envPairW : Env where
  deathState := fun _ => Life.alive
  tag := fun i => if i = 0 then "player" else "enemy"
  istate := fun _ => 0
  hitbox := fun i =>
    if i = 0 then some ⟨1, (0, 0), ⟨90, 10, 20, 20⟩, true, false, none⟩
    else if i = 1 then some ⟨1, (0, 0), ⟨100, 15, 20, 20⟩, true, false, none⟩
    else none
  raisesOn := fun _ _ => false

/-- A scene with a DEAD enemy (id 9) whose stale hitbox overlaps the live
player's hitbox. -/
def envDeadW : Env where
  deathState := fun i => if i = 9 then Life.dead else Life.alive
  tag := fun i => if i = 0 then "player" else "enemy"
  istate := fun _ => 0
  hitbox := fun i =>
    if i = 0 then some ⟨1, (0, 0), ⟨0, 0, 20, 20⟩, true, false, none⟩
    else if i = 9 then some ⟨1, (0, 0), ⟨5, 5, 20, 20⟩, true, false, none⟩
    else none
  raisesOn := fun _ _ => false

theorem detect_excludes_dead_witness :
    (∀ q ∈ (detect envDeadW 0 [9] []).collisions, q.1 ≠ 9 ∧ q.2 ≠ 9) ∧
    (∀ q ∈ (detect envDeadW 0 [9] []).callLog, q.1 ≠ 9 ∧ q.2 ≠ 9) :=
  detect_excludes_dead envDeadW 0 [9] [] (by decide)

/-- A scene with a raising pair (player 0 vs enemy 1: both orientations of
`on_collision` raise) and a disjoint well-behaved pair (player bullet 2 vs
enemy 3). -/
def envExcW : Env where
  deathState := fun _ => Life.alive
  tag := fun i => if i = 0 then "player" else if i = 2 then "player_bullet" else "enemy"
  istate := fun _ => 0
  hitbox := fun i =>
    if i = 0 then some ⟨1, (0, 0), ⟨0, 0, 20, 20⟩, true, false, none⟩
    else if i = 1 then some ⟨1, (0, 0), ⟨10, 10, 20, 20⟩, true, false, none⟩
    else if i = 2 then some ⟨1, (0, 0), ⟨300, 300, 10, 10⟩, true, false, none⟩
    else if i = 3 then some ⟨1, (0, 0), ⟨305, 305, 20, 20⟩, true, false, none⟩
    else none
  raisesOn := fun a b => (a = 0 && b = 1) || (a = 1 && b = 0)

theorem detect_reaction_exception_isolated_witness :
    ((detect envExcW 0 [1, 3] [2]).collisions.count (0, 1) +
      (detect envExcW 0 [1, 3] [2]).collisions.count (1, 0) = 1) ∧
    ((detect envExcW 0 [1, 3] [2]).callLog.count (0, 1) +
      (detect envExcW 0 [1, 3] [2]).callLog.count (1, 0) = 1) ∧
    ((detect envExcW 0 [1, 3] [2]).callLog.count (2, 3) = 1) ∧
    ((detect envExcW 0 [1, 3] [2]).callLog.count (3, 2) = 1) :=
  @detect_reaction_exception_isolated envExcW 0 [1, 3] [2] 0 1
    ⟨1, (0, 0), ⟨0, 0, 20, 20⟩, true, false, none⟩
    ⟨1, (0, 0), ⟨10, 10, 20, 20⟩, true, false, none⟩
    (by decide) (by decide) (by decide) (by decide) (by decide) (by decide)
    (by decide) (by decide) (by decide) (by decide) (by decide) (by decide)
    (by decide) (by decide) (by decide) (by decide) (by decide) (by decide)
    (by decide) 2 3
    ⟨1, (0, 0), ⟨300, 300, 10, 10⟩, true, false, none⟩
    ⟨1, (0, 0), ⟨305, 305, 20, 20⟩, true, false, none⟩
    (by decide) (by decide) (by decide) (by decide) (by decide) (by decide)
    (by decide) (by decide) (by decide) (by decide) (by decide) (by decide)
    (by decide) (by decide) (by decide) (by decide) (by decide) (by decide)
    (by decide)


/-! ### Live attribute mutation during a `detect` pass (claim C1)

`detect` pre-filters on `death_state` once, but the two innermost loops
re-read `death_state` ("Skip destroyed entities mid-frame", line 246) and
the interaction `state` live, and the reaction handlers themselves mutate
them: the default bullet handler (`base_bullet.py`, line 121) sets the
bullet's own `death_state = DEAD`, and `BaseEnemy.on_collision` calls
`take_damage`, which can advance the enemy to DYING.  `Env.deathState` and
`Env.istate` are the values at the start of the pass (used by the
pre-filter and seeding the live store); the pass threads the live store,
and each `x.on_collision(y)` invocation transforms it by an oracle
`eff x y` (an invocation that raises may already have mutated state, so the
effect is applied for raising calls as well). -/

/-- The per-entity attributes that the pair loop re-reads live. -/
structure AttrStore where
  death : Nat → Life
  istate : Nat → Nat

/-- State of one `detect` pass with the live attribute store. -/
structure MState where
  seen : List (Nat × Nat)
  collisions : List (Nat × Nat)
  callLog : List (Nat × Nat)
  attrs : AttrStore

/-- Reaction handlers that do not touch `death_state` or the interaction
`state`. -/
def effId : Nat → Nat → AttrStore → AttrStore := fun _ _ a => a

/-- `detectStep` with the live store: identical control flow, but the
mid-frame death check and the intangibility check read the current store,
and each `on_collision` invocation applies its effect to the store. -/
def detectStepM (env : Env) (eff : Nat → Nat → AttrStore → AttrStore)
    (s : MState) (p : Nat × Nat) : MState :=
  match env.hitbox p.1 with
  | none => s
  | some ahb =>
    if ¬ ahb.active then s
    else if p.1 = p.2 then s
    else
      match env.hitbox p.2 with
      | none => s
      | some bhb =>
        if ¬ bhb.active then s
        else if pairKey p.1 p.2 ∈ s.seen then s
        else
          let s1 : MState := { s with seen := pairKey p.1 p.2 :: s.seen }
          if (s.attrs.death p.1).toNat ≥ DEADv ∨ (s.attrs.death p.2).toNat ≥ DEADv then s1
          else if (env.tag p.1, env.tag p.2) ∉ rules ∧ (env.tag p.2, env.tag p.1) ∉ rules then s1
          else if s.attrs.istate p.1 ≥ INTANGIBLEv ∨ s.attrs.istate p.2 ≥ INTANGIBLEv then s1
          else if colliderect ahb.rect bhb.rect then
            let s2 : MState := { s1 with
              collisions := s1.collisions ++ [(p.1, p.2)]
              callLog := s1.callLog ++ [(p.1, p.2)]
              attrs := eff p.1 p.2 s1.attrs }
            if env.raisesOn p.1 p.2 then s2
            else { s2 with callLog := s2.callLog ++ [(p.2, p.1)],
                           attrs := eff p.2 p.1 s2.attrs }
          else s1

/-- `CollisionManager.detect` with the live store. -/
def detectM (env : Env) (eff : Nat → Nat → AttrStore → AttrStore)
    (player : Nat) (entities bullets : List Nat) : MState :=
  let active_bullets := bullets.filter (fun b => (env.deathState b).toNat < DEADv)
  let active_entities := entities.filter (fun e => (env.deathState e).toNat < DEADv)
  let pl : Option Nat :=
    if (env.deathState player).toNat < DEADv then some player else none
  let total := active_bullets.length + active_entities.length +
    (match pl with | some _ => 1 | none => 0)
  if total = 0 then ⟨[], [], [], ⟨env.deathState, env.istate⟩⟩
  else
    let cs : Int := if total > 800 then 48 else if total < 100 then 96 else 64
    let grid := buildGrid env cs (detectObjects env player entities bullets)
    (occurrences grid).foldl (detectStepM env eff) ⟨[], [], [], ⟨env.deathState, env.istate⟩⟩

/-- A scene with a live player bullet (id 2) overlapping two live enemies
(ids 3 and 4) inside one grid cell; the player (id 0) is dead and absent. -/
def envMidW : Env where
  deathState := fun i => if i = 0 then Life.dead else Life.alive
  tag := fun i => if i = 2 then "player_bullet" else "enemy"
  istate := fun _ => 0
  hitbox := fun i =>
    if i = 2 then some ⟨1, (0, 0), ⟨10, 10, 5, 5⟩, true, false, none⟩
    else if i = 3 then some ⟨1, (0, 0), ⟨8, 8, 10, 10⟩, true, false, none⟩
    else if i = 4 then some ⟨1, (0, 0), ⟨12, 12, 10, 10⟩, true, false, none⟩
    else none
  raisesOn := fun _ _ => false

/-- The repository's default reaction effects for that scene: the bullet
(id 2) marks itself DEAD on any collision (`base_bullet.py`, line 121); an
enemy hit at 1 hp advances to DYING via `take_damage` → `mark_dead`. -/
def effMidW : Nat → Nat → AttrStore → AttrStore := fun x _ a =>
  if x = 2 then { a with death := fun n => if n = 2 then Life.dead else a.death n }
  else if x = 3 ∨ x = 4 then
    { a with death := fun n => if n = x then Life.dying else a.death n }
  else a
/-- C1 counterexample: both candidate pairs — bullet 2 vs enemy 3 and
bullet 2 vs enemy 4 — satisfy every entry-time precondition of the claim
(live, registered active hitboxes, an allowed tag ordering, overlapping
rects, non-raising handlers), yet with the repository's default reaction
effects the pass reports only the first pair: the bullet's own handler sets
its `death_state = DEAD` mid-pass, so the line-246 re-check skips the
second pair entirely — zero `on_collision` calls and no reported collision,
not "exactly once". -/
theorem detect_mid_pass_kill_counterexample :
    ((envMidW.deathState 2).toNat < DEADv ∧ (envMidW.deathState 3).toNat < DEADv ∧
      (envMidW.deathState 4).toNat < DEADv) ∧
    (2 ∈ detectObjects envMidW 0 [3, 4] [2] ∧ 4 ∈ detectObjects envMidW 0 [3, 4] [2]) ∧
    ((envMidW.tag 2, envMidW.tag 4) ∈ rules) ∧
    (colliderect ⟨10, 10, 5, 5⟩ ⟨12, 12, 10, 10⟩ = true) ∧
    ((detectM envMidW effMidW 0 [3, 4] [2]).collisions = [(3, 2)]) ∧
    ((detectM envMidW effMidW 0 [3, 4] [2]).callLog = [(3, 2), (2, 3)]) ∧
    ((detectM envMidW effMidW 0 [3, 4] [2]).callLog.count (2, 4) = 0) ∧
    ((detectM envMidW effMidW 0 [3, 4] [2]).callLog.count (4, 2) = 0) := by
  decide
theorem detectStepM_cases (env : Env) (eff : Nat → Nat → AttrStore → AttrStore)
    (s : MState) (p : Nat × Nat) :
    (detectStepM env eff s p = s) ∨
    (pairKey p.1 p.2 ∉ s.seen ∧ ∃ tc tl a2,
       detectStepM env eff s p = { seen := pairKey p.1 p.2 :: s.seen,
                                   collisions := s.collisions ++ tc,
                                   callLog := s.callLog ++ tl,
                                   attrs := a2 } ∧
       (tc = [] ∧ tl = [] ∨
        tc = [(p.1, p.2)] ∧ (tl = [(p.1, p.2)] ∨ tl = [(p.1, p.2), (p.2, p.1)]))) := by
  unfold detectStepM
  cases hh1 : env.hitbox p.1 with
  | none => left; rfl
  | some ahb =>
  dsimp only
  by_cases ha : ¬ ahb.active
  · rw [if_pos ha]; left; rfl
  rw [if_neg ha]
  by_cases hab : p.1 = p.2
  · rw [if_pos hab]; left; rfl
  rw [if_neg hab]
  cases hh2 : env.hitbox p.2 with
  | none => left; rfl
  | some bhb =>
  dsimp only
  by_cases hb : ¬ bhb.active
  · rw [if_pos hb]; left; rfl
  rw [if_neg hb]
  by_cases hseen : pairKey p.1 p.2 ∈ s.seen
  · rw [if_pos hseen]; left; rfl
  rw [if_neg hseen]
  right
  refine ⟨hseen, ?_⟩
  by_cases hdead : (s.attrs.death p.1).toNat ≥ DEADv ∨ (s.attrs.death p.2).toNat ≥ DEADv
  · rw [if_pos hdead]
    exact ⟨[], [], s.attrs, by simp only [List.append_nil], Or.inl ⟨rfl, rfl⟩⟩
  rw [if_neg hdead]
  by_cases htag : (env.tag p.1, env.tag p.2) ∉ rules ∧ (env.tag p.2, env.tag p.1) ∉ rules
  · rw [if_pos htag]
    exact ⟨[], [], s.attrs, by simp only [List.append_nil], Or.inl ⟨rfl, rfl⟩⟩
  rw [if_neg htag]
  by_cases hint : s.attrs.istate p.1 ≥ INTANGIBLEv ∨ s.attrs.istate p.2 ≥ INTANGIBLEv
  · rw [if_pos hint]
    exact ⟨[], [], s.attrs, by simp only [List.append_nil], Or.inl ⟨rfl, rfl⟩⟩
  rw [if_neg hint]
  by_cases hov : colliderect ahb.rect bhb.rect = true
  · rw [if_pos hov]
    by_cases hr : env.raisesOn p.1 p.2 = true
    · rw [if_pos hr]
      exact ⟨[(p.1, p.2)], [(p.1, p.2)], eff p.1 p.2 s.attrs, rfl,
        Or.inr ⟨rfl, Or.inl rfl⟩⟩
    · rw [if_neg hr]
      exact ⟨[(p.1, p.2)], [(p.1, p.2), (p.2, p.1)], eff p.2 p.1 (eff p.1 p.2 s.attrs),
        by simp only [List.append_assoc, List.cons_append, List.nil_append],
        Or.inr ⟨rfl, Or.inr rfl⟩⟩
  · rw [if_neg hov]
    exact ⟨[], [], s.attrs, by simp only [List.append_nil], Or.inl ⟨rfl, rfl⟩⟩

theorem detectStepM_unrelated (env : Env) (eff : Nat → Nat → AttrStore → AttrStore)
    (s : MState) (p : Nat × Nat) {A B : Nat}
    (hun : ¬ (p = (A, B) ∨ p = (B, A))) :
    ((pairKey A B ∈ (detectStepM env eff s p).seen) ↔ pairKey A B ∈ s.seen) ∧
    (detectStepM env eff s p).collisions.count (A, B) = s.collisions.count (A, B) ∧
    (detectStepM env eff s p).collisions.count (B, A) = s.collisions.count (B, A) ∧
    (detectStepM env eff s p).callLog.count (A, B) = s.callLog.count (A, B) ∧
    (detectStepM env eff s p).callLog.count (B, A) = s.callLog.count (B, A) := by
  have hp1 : p ≠ (A, B) := fun h => hun (Or.inl h)
  have hp2 : p ≠ (B, A) := fun h => hun (Or.inr h)
  have hpp : (p.1, p.2) = p := rfl
  have hs1 : (p.2, p.1) ≠ (A, B) := by
    intro h
    apply hp2
    have h1 : p.2 = A := congrArg Prod.fst h
    have h2 : p.1 = B := congrArg Prod.snd h
    calc p = (p.1, p.2) := rfl
    _ = (B, A) := by rw [h1, h2]
  have hs2 : (p.2, p.1) ≠ (B, A) := by
    intro h
    apply hp1
    have h1 : p.2 = B := congrArg Prod.fst h
    have h2 : p.1 = A := congrArg Prod.snd h
    calc p = (p.1, p.2) := rfl
    _ = (A, B) := by rw [h1, h2]
  have hkey : pairKey p.1 p.2 ≠ pairKey A B := by
    intro h
    rcases pairKey_eq_iff.mp h with ⟨h1, h2⟩ | ⟨h1, h2⟩
    · exact hp1 (by calc p = (p.1, p.2) := rfl
        _ = (A, B) := by rw [h1, h2])
    · exact hp2 (by calc p = (p.1, p.2) := rfl
        _ = (B, A) := by rw [h1, h2])
  rcases detectStepM_cases env eff s p with heq | ⟨hns, tc, tl, a2, heq, htails⟩
  · rw [heq]
    exact ⟨Iff.rfl, rfl, rfl, rfl, rfl⟩
  · rw [heq]
    have hseen : (pairKey A B ∈ pairKey p.1 p.2 :: s.seen) ↔ pairKey A B ∈ s.seen := by
      rw [List.mem_cons]
      constructor
      · rintro (h | h)
        · exact absurd h.symm hkey
        · exact h
      · exact Or.inr
    have hctc1 : tc.count (A, B) = 0 := by
      rcases htails with ⟨rfl, -⟩ | ⟨rfl, -⟩
      · rfl
      · simp [List.count_cons, hpp, hp1]
    have hctc2 : tc.count (B, A) = 0 := by
      rcases htails with ⟨rfl, -⟩ | ⟨rfl, -⟩
      · rfl
      · simp [List.count_cons, hpp, hp2]
    have hctl1 : tl.count (A, B) = 0 := by
      rcases htails with ⟨-, rfl⟩ | ⟨-, rfl | rfl⟩
      · rfl
      · simp [List.count_cons, hpp, hp1]
      · simp [List.count_cons, hpp, hp1, hs1]
    have hctl2 : tl.count (B, A) = 0 := by
      rcases htails with ⟨-, rfl⟩ | ⟨-, rfl | rfl⟩
      · rfl
      · simp [List.count_cons, hpp, hp2]
      · simp [List.count_cons, hpp, hp2, hs2]
    refine ⟨hseen, ?_, ?_, ?_, ?_⟩ <;>
      simp [List.count_append, hctc1, hctc2, hctl1, hctl2]

theorem foldl_detectStepM_atmost (env : Env) (eff : Nat → Nat → AttrStore → AttrStore)
    {A B : Nat} (hne : A ≠ B) (occ : List (Nat × Nat)) (s : MState)
    (hc : s.collisions.count (A, B) + s.collisions.count (B, A) ≤
      (if pairKey A B ∈ s.seen then 1 else 0))
    (h1 : s.callLog.count (A, B) ≤ (if pairKey A B ∈ s.seen then 1 else 0))
    (h2 : s.callLog.count (B, A) ≤ (if pairKey A B ∈ s.seen then 1 else 0)) :
    ((occ.foldl (detectStepM env eff) s).callLog.count (A, B) ≤ 1) ∧
    ((occ.foldl (detectStepM env eff) s).callLog.count (B, A) ≤ 1) ∧
    ((occ.foldl (detectStepM env eff) s).collisions.count (A, B) +
        (occ.foldl (detectStepM env eff) s).collisions.count (B, A) ≤ 1) := by
  induction occ generalizing s with
  | nil =>
      have hb : (if pairKey A B ∈ s.seen then (1 : Nat) else 0) ≤ 1 := by
        split <;> omega
      exact ⟨le_trans h1 hb, le_trans h2 hb, le_trans hc hb⟩
  | cons p rest ih =>
      simp only [List.foldl_cons]
      by_cases hrel : p = (A, B) ∨ p = (B, A)
      · rcases detectStepM_cases env eff s p with heq | ⟨hns, tc, tl, a2, heq, htails⟩
        · rw [heq]
          exact ih s hc h1 h2
        · rw [heq]
          have hkey : pairKey p.1 p.2 = pairKey A B := by
            rcases hrel with rfl | rfl
            · rfl
            · exact pairKey_comm B A
          have hnsAB : pairKey A B ∉ s.seen := by
            rw [← hkey]
            exact hns
          rw [if_neg hnsAB] at hc h1 h2
          have hmem : pairKey A B ∈ pairKey p.1 p.2 :: s.seen := by
            rw [hkey]
            exact List.mem_cons_self _ _
          have hc0 : s.collisions.count (A, B) = 0 ∧ s.collisions.count (B, A) = 0 := by
            omega
          have h10 : s.callLog.count (A, B) = 0 := by omega
          have h20 : s.callLog.count (B, A) = 0 := by omega
          apply ih
          · dsimp only
            rw [if_pos hmem]
            rcases htails with ⟨rfl, -⟩ | ⟨rfl, -⟩
            · simp [List.count_append, hc0.1, hc0.2]
            · rcases hrel with rfl | rfl <;>
                simp [List.count_append, List.count_cons, Prod.mk.injEq, hne,
                  Ne.symm hne, hc0.1, hc0.2] <;> omega
          · dsimp only
            rw [if_pos hmem]
            rcases htails with ⟨-, rfl⟩ | ⟨-, rfl | rfl⟩
            · simp [List.count_append, h10]
            · rcases hrel with rfl | rfl <;>
                simp [List.count_append, List.count_cons, Prod.mk.injEq, hne,
                  Ne.symm hne, h10] <;> omega
            · rcases hrel with rfl | rfl <;>
                simp [List.count_append, List.count_cons, Prod.mk.injEq, hne,
                  Ne.symm hne, h10] <;> omega
          · dsimp only
            rw [if_pos hmem]
            rcases htails with ⟨-, rfl⟩ | ⟨-, rfl | rfl⟩
            · simp [List.count_append, h20]
            · rcases hrel with rfl | rfl <;>
                simp [List.count_append, List.count_cons, Prod.mk.injEq, hne,
                  Ne.symm hne, h20] <;> omega
            · rcases hrel with rfl | rfl <;>
                simp [List.count_append, List.count_cons, Prod.mk.injEq, hne,
                  Ne.symm hne, h20] <;> omega
      · obtain ⟨hseq, hc1, hc2, hl1, hl2⟩ := detectStepM_unrelated env eff s p hrel
        have hif : (if pairKey A B ∈ (detectStepM env eff s p).seen then (1 : Nat) else 0) =
            (if pairKey A B ∈ s.seen then 1 else 0) := by
          by_cases h : pairKey A B ∈ s.seen
          · rw [if_pos (hseq.mpr h), if_pos h]
          · rw [if_neg (fun hx => h (hseq.mp hx)), if_neg h]
        apply ih
        · rw [hc1, hc2, hif]
          exact hc
        · rw [hl1, hif]
          exact h1
        · rw [hl2, hif]
          exact h2

theorem detectM_eq_cases (env : Env) (eff : Nat → Nat → AttrStore → AttrStore)
    (player : Nat) (entities bullets : List Nat) :
    detectM env eff player entities bullets = ⟨[], [], [], ⟨env.deathState, env.istate⟩⟩ ∨
    ∃ cs : Int, 0 < cs ∧
      detectM env eff player entities bullets =
        (occurrences (buildGrid env cs (detectObjects env player entities bullets))).foldl
          (detectStepM env eff) ⟨[], [], [], ⟨env.deathState, env.istate⟩⟩ := by
  unfold detectM
  dsimp only
  by_cases htot : ((bullets.filter (fun b => (env.deathState b).toNat < DEADv)).length +
      (entities.filter (fun e => (env.deathState e).toNat < DEADv)).length +
      (match (if (env.deathState player).toNat < DEADv then some player else none) with
       | some _ => 1 | none => 0)) = 0
  · rw [if_pos htot]
    exact Or.inl rfl
  · rw [if_neg htot]
    refine Or.inr ⟨_, ?_, rfl⟩
    split_ifs <;> norm_num
theorem detectStepM_id (env : Env) (s : DState) (p : Nat × Nat) :
    detectStepM env effId ⟨s.seen, s.collisions, s.callLog, ⟨env.deathState, env.istate⟩⟩ p =
      ⟨(detectStep env s p).seen, (detectStep env s p).collisions,
       (detectStep env s p).callLog, ⟨env.deathState, env.istate⟩⟩ := by
  unfold detectStepM detectStep effId
  cases hh1 : env.hitbox p.1 with
  | none => rfl
  | some ahb =>
  dsimp only
  by_cases ha : ¬ ahb.active
  · simp only [if_pos ha]
  simp only [if_neg ha]
  by_cases hab : p.1 = p.2
  · simp only [if_pos hab]
  simp only [if_neg hab]
  cases hh2 : env.hitbox p.2 with
  | none => rfl
  | some bhb =>
  dsimp only
  by_cases hb : ¬ bhb.active
  · simp only [if_pos hb]
  simp only [if_neg hb]
  by_cases hseen : pairKey p.1 p.2 ∈ s.seen
  · simp only [if_pos hseen]
  simp only [if_neg hseen]
  by_cases hdead : (env.deathState p.1).toNat ≥ DEADv ∨ (env.deathState p.2).toNat ≥ DEADv
  · simp only [if_pos hdead]
  simp only [if_neg hdead]
  by_cases htag : (env.tag p.1, env.tag p.2) ∉ rules ∧ (env.tag p.2, env.tag p.1) ∉ rules
  · simp only [if_pos htag]
  simp only [if_neg htag]
  by_cases hint : env.istate p.1 ≥ INTANGIBLEv ∨ env.istate p.2 ≥ INTANGIBLEv
  · simp only [if_pos hint]
  simp only [if_neg hint]
  by_cases hov : colliderect ahb.rect bhb.rect = true
  · simp only [if_pos hov]
    by_cases hr : env.raisesOn p.1 p.2 = true
    · simp only [if_pos hr]
    · simp only [if_neg hr]
  · simp only [if_neg hov]

theorem foldl_detectStepM_id (env : Env) (occ : List (Nat × Nat)) :
    ∀ s : DState,
      occ.foldl (detectStepM env effId)
          ⟨s.seen, s.collisions, s.callLog, ⟨env.deathState, env.istate⟩⟩ =
        ⟨(occ.foldl (detectStep env) s).seen, (occ.foldl (detectStep env) s).collisions,
         (occ.foldl (detectStep env) s).callLog, ⟨env.deathState, env.istate⟩⟩ := by
  induction occ with
  | nil => intro s; rfl
  | cons p rest ih =>
      intro s
      simp only [List.foldl_cons]
      rw [detectStepM_id]
      exact ih (detectStep env s p)

theorem detectM_id (env : Env) (player : Nat) (entities bullets : List Nat) :
    detectM env effId player entities bullets =
      ⟨(detect env player entities bullets).seen,
       (detect env player entities bullets).collisions,
       (detect env player entities bullets).callLog,
       ⟨env.deathState, env.istate⟩⟩ := by
  unfold detectM detect
  dsimp only
  by_cases htot : ((bullets.filter (fun b => (env.deathState b).toNat < DEADv)).length +
      (entities.filter (fun e => (env.deathState e).toNat < DEADv)).length +
      (match (if (env.deathState player).toNat < DEADv then some player else none) with
       | some _ => 1 | none => 0)) = 0
  · simp only [if_pos htot]
  · simp only [if_neg htot]
    exact foldl_detectStepM_id env _ ⟨[], [], []⟩

/-- C1 (amended): for a pair of entities live at the start of the pass, with
registered active hitboxes, an allowed tag ordering, both below the
intangible interaction state, and overlapping rects, `detect` invokes each
direction of `on_collision` AT MOST once and reports the pair at most once,
whatever the reaction handlers do to the live `death_state`/interaction
state; and EXACTLY once when the handlers leave those attributes unchanged.
With the repository's default bullet handler (which sets the bullet DEAD
mid-pass), a pair whose entity was destroyed by an earlier reaction in the
same pass is skipped by the line-246 re-check and fires zero calls. -/
theorem detect_pair_dispatched_at_most_once (env : Env)
    (eff : Nat → Nat → AttrStore → AttrStore) (player : Nat)
    (entities bullets : List Nat) {A B : Nat} {hA hB : CollisionHitbox}
    (hmemA : A ∈ detectObjects env player entities bullets)
    (hmemB : B ∈ detectObjects env player entities bullets)
    (hne : A ≠ B)
    (hhA : env.hitbox A = some hA) (hactA : hA.active = true)
    (hhB : env.hitbox B = some hB) (hactB : hB.active = true)
    (hdA : (env.deathState A).toNat < DEADv) (hdB : (env.deathState B).toNat < DEADv)
    (htag : (env.tag A, env.tag B) ∈ rules ∨ (env.tag B, env.tag A) ∈ rules)
    (hiA : env.istate A < INTANGIBLEv) (hiB : env.istate B < INTANGIBLEv)
    (hwA : 0 ≤ hA.rect.w) (hhgtA : 0 ≤ hA.rect.h)
    (hwB : 0 ≤ hB.rect.w) (hhgtB : 0 ≤ hB.rect.h)
    (hov : colliderect hA.rect hB.rect = true)
    (hr1 : env.raisesOn A B = false) (hr2 : env.raisesOn B A = false) :
    ((detectM env eff player entities bullets).callLog.count (A, B) ≤ 1 ∧
     (detectM env eff player entities bullets).callLog.count (B, A) ≤ 1 ∧
     (detectM env eff player entities bullets).collisions.count (A, B) +
       (detectM env eff player entities bullets).collisions.count (B, A) ≤ 1) ∧
    ((∀ x y a, eff x y a = a) →
      ((detectM env eff player entities bullets).callLog.count (A, B) = 1 ∧
       (detectM env eff player entities bullets).callLog.count (B, A) = 1 ∧
       (detectM env eff player entities bullets).collisions.count (A, B) +
         (detectM env eff player entities bullets).collisions.count (B, A) = 1)) := by
  constructor
  · rcases detectM_eq_cases env eff player entities bullets with heq | ⟨cs, hcs, heq⟩
    · rw [heq]
      exact ⟨by simp, by simp, by simp⟩
    · rw [heq]
      obtain ⟨hx1, hx2, hx3⟩ := foldl_detectStepM_atmost env eff hne
        (occurrences (buildGrid env cs (detectObjects env player entities bullets)))
        ⟨[], [], [], ⟨env.deathState, env.istate⟩⟩ (by simp) (by simp) (by simp)
      exact ⟨hx1, hx2, hx3⟩
  · intro hid
    have heff : eff = effId := by
      funext x y a
      exact hid x y a
    subst heff
    rw [detectM_id]
    dsimp only
    obtain ⟨cs, hcs, heq⟩ :=
      detect_eq_foldl env player entities bullets (List.ne_nil_of_mem hmemA)
    rw [heq]
    obtain ⟨c, hcA, hcB⟩ := cellRange_overlap hcs hwA hhgtA hwB hhgtB hov
    have hAg := mem_glookup_buildGrid env cs hmemA hhA hcA
    have hBg := mem_glookup_buildGrid env cs hmemB hhB hcB
    have hocc : (A, B) ∈ occurrences
        (buildGrid env cs (detectObjects env player entities bullets)) :=
      pair_mem_occurrences hAg hBg
    have hseen := foldl_detectStep_pair_seen env hne hhA hactA hhB hactB hdA hdB
      htag hiA hiB hov _ ⟨[], [], []⟩ hocc
    obtain ⟨hcol, hl1, hl2⟩ := foldl_detectStep_noraise env hne hhA hactA hhB hactB
      hdA hdB htag hiA hiB hov hr1 hr2
      (occurrences (buildGrid env cs (detectObjects env player entities bullets)))
      ⟨[], [], []⟩ (by simp) (by simp) (by simp)
    rw [if_pos hseen] at hcol hl1 hl2
    exact ⟨hl1, hl2, hcol⟩

/-- Witness for the amended C1 theorem: the two-object cell-edge scene with
handlers that leave the live attributes unchanged. -/
theorem detect_pair_dispatched_at_most_once_witness :
    (((detectM envPairW effId 0 [1] []).callLog.count (0, 1) ≤ 1 ∧
      (detectM envPairW effId 0 [1] []).callLog.count (1, 0) ≤ 1 ∧
      (detectM envPairW effId 0 [1] []).collisions.count (0, 1) +
        (detectM envPairW effId 0 [1] []).collisions.count (1, 0) ≤ 1) ∧
     ((∀ x y a, effId x y a = a) →
       ((detectM envPairW effId 0 [1] []).callLog.count (0, 1) = 1 ∧
        (detectM envPairW effId 0 [1] []).callLog.count (1, 0) = 1 ∧
        (detectM envPairW effId 0 [1] []).collisions.count (0, 1) +
          (detectM envPairW effId 0 [1] []).collisions.count (1, 0) = 1))) :=
  @detect_pair_dispatched_at_most_once envPairW effId 0 [1] [] 0 1
    ⟨1, (0, 0), ⟨90, 10, 20, 20⟩, true, false, none⟩
    ⟨1, (0, 0), ⟨100, 15, 20, 20⟩, true, false, none⟩
    (by decide) (by decide) (by decide) (by decide) (by decide) (by decide)
    (by decide) (by decide) (by decide) (by decide) (by decide) (by decide)
    (by decide) (by decide) (by decide) (by decide) (by decide) (by decide)
    (by decide)


/-! ## Claim theorems: lifecycle, hitbox guards, pattern generator -/

/-- C3 counterexample: the claim says a `mark_dead(immediate=False)` call on
a DYING entity is a no-op that leaves the state DYING; the code instead
finalizes the death, advancing DYING to DEAD. -/
theorem mark_dead_dying_counterexample :
    mark_dead Life.dying false = Life.dead ∧ Life.dead ≠ Life.dying := by
  decide

/-- C3 (amended): `mark_dead` is a no-op once DEAD; `immediate=True` forces
DEAD from any state; a non-immediate call on an ALIVE entity begins the
death sequence (DYING); and a further call on a DYING entity — immediate or
not — finalizes it to DEAD (rather than being a no-op). -/
theorem mark_dead_transitions :
    (∀ imm, mark_dead Life.dead imm = Life.dead) ∧
    (∀ st, mark_dead st true = Life.dead) ∧
    (mark_dead Life.dying false = Life.dead) ∧
    (mark_dead Life.alive false = Life.dying) := by
  refine ⟨?_, ?_, rfl, rfl⟩
  · intro imm
    cases imm <;> rfl
  · intro st
    cases st <;> rfl

/-- C8: `set_size` called with a non-positive width or height, and
`set_scale` called with a non-positive scale, leave the hitbox completely
unchanged (rect, scale, size cache, manual-mode flag, active flag).  The
accompanying warning goes to the external logging collaborator and is not
part of the modelled state. -/
theorem hitbox_rejects_nonpositive (hb : CollisionHitbox) (owner : PyRect)
    (width height : Int) (scale : Rat) :
    (width ≤ 0 ∨ height ≤ 0 → hb.set_size owner width height = hb) ∧
    (scale ≤ 0 → hb.set_scale owner scale = hb) := by
  constructor
  · intro h
    unfold CollisionHitbox.set_size
    rw [if_pos h]
  · intro h
    unfold CollisionHitbox.set_scale
    rw [if_pos h]

theorem hitbox_rejects_nonpositive_witness :
    CollisionHitbox.set_size ⟨1, (0, 0), ⟨0, 0, 10, 10⟩, true, false, none⟩
        ⟨0, 0, 10, 10⟩ 0 5 =
      ⟨1, (0, 0), ⟨0, 0, 10, 10⟩, true, false, none⟩ ∧
    CollisionHitbox.set_scale ⟨1, (0, 0), ⟨0, 0, 10, 10⟩, true, false, none⟩
        ⟨0, 0, 10, 10⟩ 0 =
      ⟨1, (0, 0), ⟨0, 0, 10, 10⟩, true, false, none⟩ :=
  ⟨(hitbox_rejects_nonpositive _ _ 0 5 0).1 (Or.inl (by norm_num)),
   (hitbox_rejects_nonpositive _ _ 0 5 0).2 (by norm_num)⟩

/-- C9 counterexample: `pattern_line(5, 1280)` does return 5 positions, but
their x-coordinates sum to 3195 (mean 639), not 3200 (mean 640): the
spacing `1280 // 6 = 213` uses floor division, so the row is not exactly
symmetric around 640. -/
theorem pattern_line_mean_counterexample :
    (pattern_line 5 1280).length = 5 ∧
    ((pattern_line 5 1280).map Prod.fst).sum = 3195 ∧
    (3195 : Int) ≠ 5 * 640 := by
  decide

/-- C9 (amended): `pattern_line(5, 1280)` with default parameters returns
exactly 5 positions, evenly spaced 213 apart, all with the same
y-coordinate (-100); the x-coordinates average 639 = 3 * (1280 // 6),
approximately — but not exactly — centered on 640. -/
theorem pattern_line_5_1280 :
    pattern_line 5 1280 =
      [(213, -100), (426, -100), (639, -100), (852, -100), (1065, -100)] ∧
    (∀ q ∈ pattern_line 5 1280, q.2 = -100) ∧
    ((pattern_line 5 1280).map Prod.fst).sum = 5 * 639 ∧
    (List.zipWith (fun a b => b - a) ((pattern_line 5 1280).map Prod.fst)
      (((pattern_line 5 1280).map Prod.fst).tail) = [213, 213, 213, 213]) := by
  refine ⟨by decide, ?_, by decide, by decide⟩
  decide

/-! ## Wave scheduler component (`level_manager.py`, lines 145-155, 222-232,
243-248)

The wave-firing component of `LevelManager.update` for the current phase:
`phase_timer`, the phase's sorted wave-time array, the monotonically
advancing `wave_idx`, plus a log of `(wave index, tick number)` recording
each `_trigger_wave` dispatch.  Events and the exit trigger are modelled
with the full phase scheduler further below. -/

structure WaveSched where
  phase_timer : Rat
  waves : List Rat
  wave_idx : Nat
  log : List (Nat × Nat)
  tick : Nat
  deriving DecidableEq, Repr

/-- The wave part of `_load_phase`: waves sorted by time, index reset,
timer reset. -/
def loadWaves (times : List Rat) : WaveSched :=
  { phase_timer := 0
    waves := times.mergeSort (fun a b => decide (a ≤ b))
    wave_idx := 0
    log := []
    tick := 0 }

/-- `_update_waves`:

```
while (self.wave_idx < len(self.waves) and
       self.phase_timer >= self.waves[self.wave_idx].get("time", 0)):
    self._trigger_wave(self.waves[self.wave_idx])
    self.wave_idx += 1
```
-/
def fireDue (s : WaveSched) : WaveSched :=
  if h : s.wave_idx < s.waves.length then
    if s.waves.get ⟨s.wave_idx, h⟩ ≤ s.phase_timer then
      fireDue { s with wave_idx := s.wave_idx + 1,
                       log := s.log ++ [(s.wave_idx, s.tick)] }
    else s
  else s
termination_by s.waves.length - s.wave_idx
decreasing_by
  simp_wf
  omega

/-- The timer accumulation and wave check of `LevelManager.update`
(lines 228-232): `self.phase_timer += dt`, then
`if self.wave_idx < len(self.waves): self._update_waves()`. -/
def schedUpdate (s : WaveSched) (dt : Rat) : WaveSched :=
  let s2 := { s with phase_timer := s.phase_timer + dt, tick := s.tick + 1 }
  if s2.wave_idx < s2.waves.length then fireDue s2 else s2

def runSched (times : List Rat) (dts : List Rat) : WaveSched :=
  dts.foldl schedUpdate (loadWaves times)

/-- The length of the maximal prefix of the wave array whose times are due
at timer value `T`. -/
def countDue : List Rat → Rat → Nat
  | [], _ => 0
  | t :: rest, T => if t ≤ T then countDue rest T + 1 else 0

theorem countDue_le_length (l : List Rat) (T : Rat) : countDue l T ≤ l.length := by
  induction l with
  | nil => simp [countDue]
  | cons t rest ih =>
    simp only [countDue, List.length_cons]
    split_ifs
    · omega
    · omega

theorem countDue_mono (l : List Rat) {T T2 : Rat} (h : T ≤ T2) :
    countDue l T ≤ countDue l T2 := by
  induction l with
  | nil => simp [countDue]
  | cons t rest ih =>
    simp only [countDue]
    split_ifs with h1 h2
    · omega
    · exact absurd (le_trans h1 h) h2
    · omega
    · omega

theorem get_le_of_lt_countDue {l : List Rat} {T : Rat} {i : Nat}
    (h : i < countDue l T) :
    ∃ hi : i < l.length, l.get ⟨i, hi⟩ ≤ T := by
  induction l generalizing i with
  | nil => simp [countDue] at h
  | cons t rest ih =>
    simp only [countDue] at h
    split_ifs at h with ht
    · cases i with
      | zero => exact ⟨by simp, ht⟩
      | succ j =>
        obtain ⟨hj, hle⟩ := ih (i := j) (by omega)
        exact ⟨by simpa using Nat.succ_lt_succ hj, by simpa using hle⟩
    · omega

theorem lt_countDue_of_get_le {l : List Rat} (hs : List.Sorted (· ≤ ·) l)
    {T : Rat} {i : Nat} (hi : i < l.length) (h : l.get ⟨i, hi⟩ ≤ T) :
    i < countDue l T := by
  induction l generalizing i with
  | nil => simp at hi
  | cons t rest ih =>
    simp only [countDue]
    have ht : t ≤ T := by
      cases i with
      | zero => simpa using h
      | succ j =>
        have : t ≤ rest.get ⟨j, by simpa using hi⟩ :=
          List.rel_of_sorted_cons hs _ (List.get_mem rest j _)
        exact le_trans this (by simpa using h)
    rw [if_pos ht]
    cases i with
    | zero => omega
    | succ j =>
      have := ih (List.sorted_cons.mp hs).2 (i := j) (by simpa using hi) (by simpa using h)
      omega

theorem fireDue_eq (s : WaveSched) (hs : List.Sorted (· ≤ ·) s.waves)
    (hidx : s.wave_idx ≤ s.waves.length) :
    fireDue s = { s with
      wave_idx := max s.wave_idx (countDue s.waves s.phase_timer)
      log := s.log ++ (List.range' s.wave_idx
        (max s.wave_idx (countDue s.waves s.phase_timer) - s.wave_idx)).map
          (fun i => (i, s.tick)) } := by
  suffices H : ∀ n (s : WaveSched), List.Sorted (· ≤ ·) s.waves →
      s.wave_idx ≤ s.waves.length → s.waves.length - s.wave_idx = n →
      fireDue s = { s with
        wave_idx := max s.wave_idx (countDue s.waves s.phase_timer)
        log := s.log ++ (List.range' s.wave_idx
          (max s.wave_idx (countDue s.waves s.phase_timer) - s.wave_idx)).map
            (fun i => (i, s.tick)) } by
    exact H _ s hs hidx rfl
  intro n
  induction n with
  | zero =>
    intro s hs hidx hn
    have hlen : s.wave_idx = s.waves.length := by omega
    have hcd : countDue s.waves s.phase_timer ≤ s.wave_idx := by
      rw [hlen]
      exact countDue_le_length _ _
    rw [fireDue]
    rw [dif_neg (by omega)]
    have hmax : max s.wave_idx (countDue s.waves s.phase_timer) = s.wave_idx :=
      Nat.max_eq_left hcd
    rw [hmax]
    cases s
    simp
  | succ n ih =>
    intro s hs hidx hn
    have hlt : s.wave_idx < s.waves.length := by omega
    rw [fireDue]
    rw [dif_pos hlt]
    by_cases hdue : s.waves.get ⟨s.wave_idx, hlt⟩ ≤ s.phase_timer
    · rw [if_pos hdue]
      have hcd : s.wave_idx < countDue s.waves s.phase_timer :=
        lt_countDue_of_get_le hs hlt hdue
      have h2 := ih { s with wave_idx := s.wave_idx + 1,
                             log := s.log ++ [(s.wave_idx, s.tick)] }
        hs (by simpa using hlt) (by simp; omega)
      rw [h2]
      have hmax1 : max (s.wave_idx + 1) (countDue s.waves s.phase_timer) =
          countDue s.waves s.phase_timer := Nat.max_eq_right (by omega)
      have hmax2 : max s.wave_idx (countDue s.waves s.phase_timer) =
          countDue s.waves s.phase_timer := Nat.max_eq_right (by omega)
      simp only [hmax1, hmax2]
      have hrange : List.range' s.wave_idx
          (countDue s.waves s.phase_timer - s.wave_idx) =
          s.wave_idx :: List.range' (s.wave_idx + 1)
            (countDue s.waves s.phase_timer - (s.wave_idx + 1)) := by
        have : countDue s.waves s.phase_timer - s.wave_idx =
            (countDue s.waves s.phase_timer - (s.wave_idx + 1)) + 1 := by omega
        rw [this, List.range'_succ]
      rw [hrange]
      simp [List.append_assoc]
    · rw [if_neg hdue]
      have hcd : countDue s.waves s.phase_timer ≤ s.wave_idx := by
        by_contra hcon
        obtain ⟨hi, hle⟩ := get_le_of_lt_countDue (l := s.waves)
          (T := s.phase_timer) (i := s.wave_idx) (by omega)
        exact hdue hle
      have hmax : max s.wave_idx (countDue s.waves s.phase_timer) = s.wave_idx :=
        Nat.max_eq_left hcd
      rw [hmax]
      cases s
      simp

theorem sum_take_le_sum {l : List Rat} (h : ∀ x ∈ l, 0 ≤ x) (m : Nat) :
    (l.take m).sum ≤ l.sum := by
  conv_rhs => rw [← List.take_append_drop m l]
  rw [List.sum_append]
  have h2 : 0 ≤ (l.drop m).sum :=
    List.sum_nonneg (fun x hx => h x (List.mem_of_mem_drop hx))
  linarith

/-- A log entry `(wave index, tick)` is correct when its wave fired on the
first update tick (ticks count from 1) at which the accumulated timer
reached the wave's scheduled time. -/
def firesAtFirstHit (dts : List Rat) (ws : List Rat) (e : Nat × Nat) : Prop :=
  1 ≤ e.2 ∧ e.2 ≤ dts.length ∧ ws.getD e.1 0 ≤ (dts.take e.2).sum ∧
    ∀ m, 1 ≤ m → m < e.2 → (dts.take m).sum < ws.getD e.1 0

/-- Scheduler invariant after consuming the tick deltas `processed`:
the timer accumulates the deltas, the wave index equals the number of due
waves (except at phase load, where nothing has fired yet), and the log
records each wave exactly once, in ascending order, stamped with the first
tick at which it was due. -/
def SchedOK (processed : List Rat) (ws : List Rat) (s : WaveSched) : Prop :=
  s.waves = ws ∧ s.tick = processed.length ∧ s.phase_timer = processed.sum ∧
  s.wave_idx = (if processed = [] then 0 else countDue ws processed.sum) ∧
  s.log.map Prod.fst = List.range s.wave_idx ∧
  ∀ e ∈ s.log, firesAtFirstHit processed ws e

theorem schedUpdate_ok {processed ws : List Rat} {s : WaveSched}
    (hws : List.Sorted (· ≤ ·) ws)
    (hpos : ∀ x ∈ processed, 0 ≤ x) {d : Rat} (hd : 0 ≤ d)
    (hok : SchedOK processed ws s) :
    SchedOK (processed ++ [d]) ws (schedUpdate s d) := by
  obtain ⟨hw, ht, htm, hidx, hmap, hlog⟩ := hok
  have hsum : (processed ++ [d]).sum = processed.sum + d := by
    simp
  have hTle : processed.sum ≤ processed.sum + d := by linarith
  have hcdlen : countDue ws (processed.sum + d) ≤ ws.length :=
    countDue_le_length _ _
  have hc0le : s.wave_idx ≤ countDue ws (processed.sum + d) := by
    rw [hidx]
    split_ifs with hp0
    · omega
    · exact countDue_mono ws hTle
  have hstrict : ∀ i (hi : i < ws.length), s.wave_idx ≤ i →
      ∀ m, 1 ≤ m → m ≤ processed.length →
        (processed.take m).sum < ws.get ⟨i, hi⟩ := by
    intro i hi hle m hm1 hm2
    by_cases hp0 : processed = []
    · subst hp0
      simp at hm2
      omega
    · rw [hidx, if_neg hp0] at hle
      have hnotdue : ¬ ws.get ⟨i, hi⟩ ≤ processed.sum := by
        intro hcon
        have := lt_countDue_of_get_le hws hi hcon
        omega
      have h1 : (processed.take m).sum ≤ processed.sum := sum_take_le_sum hpos m
      have h2 : processed.sum < ws.get ⟨i, hi⟩ := not_le.mp hnotdue
      linarith
  have hne : processed ++ [d] ≠ [] := by simp
  have hfresh : ∀ e ∈ s.log, firesAtFirstHit (processed ++ [d]) ws e := by
    intro e he
    obtain ⟨h1, h2, h3, h4⟩ := hlog e he
    refine ⟨h1, by simp; omega, ?_, ?_⟩
    · rwa [List.take_append_of_le_length h2]
    · intro m hm1 hm2
      rw [List.take_append_of_le_length (by omega)]
      exact h4 m hm1 hm2
  unfold schedUpdate
  by_cases hbr : s.wave_idx < s.waves.length
  · rw [if_pos hbr]
    rw [fireDue_eq _ (by rwa [hw]) (by dsimp only; omega)]
    have hmax : max s.wave_idx (countDue ws (processed.sum + d)) =
        countDue ws (processed.sum + d) := Nat.max_eq_right hc0le
    dsimp only
    rw [hw, htm, ht, hmax]
    refine ⟨rfl, by simp, by simp [hsum], ?_, ?_, ?_⟩
    · rw [if_neg hne, hsum]
    · dsimp only
      rw [List.map_append]
      have hcomp0 : ∀ (l : List Nat),
          List.map (Prod.fst ∘ fun i => (i, processed.length + 1)) l = l := by
        intro l
        induction l with
        | nil => rfl
        | cons a t ih => exact congrArg (List.cons a) ih
      rw [List.map_map, hcomp0, hmap]
      rw [List.range_eq_range', List.range_eq_range']
      have harg := List.range'_append 0 s.wave_idx
        (countDue ws (processed.sum + d) - s.wave_idx) 1
      simp only [Nat.zero_add, Nat.one_mul] at harg
      have harg2 : countDue ws (processed.sum + d) - s.wave_idx + s.wave_idx =
          countDue ws (processed.sum + d) := by omega
      rw [harg2] at harg
      exact harg
    · intro e he
      rcases List.mem_append.mp he with hold | hnew
      · exact hfresh e hold
      · obtain ⟨i, hi, rfl⟩ := List.mem_map.mp hnew
        rw [List.mem_range'_1] at hi
        obtain ⟨hi1, hi2⟩ := hi
        have hicd : i < countDue ws (processed.sum + d) := by omega
        obtain ⟨hilen, hile⟩ := get_le_of_lt_countDue hicd
        have hgetD : ws.getD i 0 = ws.get ⟨i, hilen⟩ := List.getD_eq_get ws 0 hilen
        refine ⟨by omega, by simp, ?_, ?_⟩
        · rw [List.take_of_length_le (by simp), hsum, hgetD]
          exact hile
        · intro m hm1 hm2
          have hmle : m ≤ processed.length := by simp at hm2; omega
          rw [List.take_append_of_le_length hmle, hgetD]
          exact hstrict i hilen hi1 m hm1 hmle
  · rw [if_neg hbr]
    have hbr2 : ws.length ≤ s.wave_idx := by
      rw [← hw]
      omega
    have hidxlen : s.wave_idx = ws.length := by omega
    refine ⟨hw, by simp [ht], by simp [htm, hsum], ?_, by simpa using hmap, ?_⟩
    · dsimp only
      rw [if_neg hne, hsum, hidx]
      have hidx2 := hidx
      split_ifs with hp0
      · have hidx0 : s.wave_idx = 0 := by rw [hidx2, if_pos hp0]
        have hlen0 : ws.length = 0 := by omega
        have hwnil : ws = [] := List.length_eq_zero.mp hlen0
        subst hwnil
        rfl
      · have hidxc : s.wave_idx = countDue ws processed.sum := by
          rw [hidx2, if_neg hp0]
        omega
    · intro e he
      exact hfresh e he

theorem runSched_ok (times dts : List Rat) (hpos : ∀ d ∈ dts, 0 ≤ d) :
    SchedOK dts (times.mergeSort (fun a b => decide (a ≤ b))) (runSched times dts) := by
  have hsorted : List.Sorted (· ≤ ·) (times.mergeSort (fun a b => decide (a ≤ b))) := by
    simpa using List.sorted_mergeSort' times
  have H : ∀ (q p : List Rat) (s : WaveSched), (∀ x ∈ p, 0 ≤ x) → (∀ x ∈ q, 0 ≤ x) →
      SchedOK p (times.mergeSort (fun a b => decide (a ≤ b))) s →
      SchedOK (p ++ q) (times.mergeSort (fun a b => decide (a ≤ b)))
        (q.foldl schedUpdate s) := by
    intro q
    induction q with
    | nil =>
      intro p s hp _ h
      simpa using h
    | cons dd rest ih =>
      intro p s hp hq h
      rw [List.foldl_cons]
      have h2 := schedUpdate_ok hsorted hp (hq dd (List.mem_cons_self _ _)) h
      have hp2 : ∀ x ∈ p ++ [dd], 0 ≤ x := by
        intro x hx
        rcases List.mem_append.mp hx with hxp | hxd
        · exact hp x hxp
        · rcases List.mem_singleton.mp hxd with rfl
          exact hq x (List.mem_cons_self _ _)
      have h3 := ih (p ++ [dd]) (schedUpdate s dd) hp2
        (fun x hx => hq x (List.mem_cons_of_mem _ hx)) h2
      simpa using h3
  have base : SchedOK [] (times.mergeSort (fun a b => decide (a ≤ b)))
      (loadWaves times) := by
    refine ⟨rfl, rfl, rfl, rfl, rfl, ?_⟩
    intro e he
    cases he
  have hrun := H dts [] (loadWaves times) (by intro x hx; cases hx) hpos base
  simpa using hrun

/-- C4: for a phase whose waves are scheduled at times [0.0, 4.0, 9.0],
repeated `LevelManager.update` calls (arbitrary nonnegative tick deltas)
fire the waves each exactly once, in ascending index order, each on the
first update tick at which the accumulated phase timer has reached its
scheduled time; when one delta jumps the timer past several wave times,
all of them fire in that one tick, still in order.  Once the total elapsed
time reaches 9, all three waves have fired, in order 0, 1, 2. -/
theorem level_waves_fire_once_in_order (dts : List Rat)
    (hpos : ∀ d ∈ dts, 0 ≤ d) :
    ((runSched [0, 4, 9] dts).log.map Prod.fst =
      List.range (runSched [0, 4, 9] dts).wave_idx) ∧
    (∀ e ∈ (runSched [0, 4, 9] dts).log, 1 ≤ e.2 ∧ e.2 ≤ dts.length ∧
      ([(0 : Rat), 4, 9].getD e.1 0 ≤ (dts.take e.2).sum) ∧
      (∀ m, 1 ≤ m → m < e.2 → (dts.take m).sum < [(0 : Rat), 4, 9].getD e.1 0)) ∧
    (9 ≤ dts.sum → (runSched [0, 4, 9] dts).wave_idx = 3 ∧
      (runSched [0, 4, 9] dts).log.map Prod.fst = [0, 1, 2]) := by
  have hms : ([(0 : Rat), 4, 9].mergeSort (fun a b => decide (a ≤ b))) =
      [(0 : Rat), 4, 9] :=
    List.mergeSort_eq_self (by norm_num [List.sorted_cons])
  obtain ⟨hw, ht, htm, hidx, hmap, hlog⟩ := runSched_ok [0, 4, 9] dts hpos
  rw [hms] at hidx hlog
  refine ⟨hmap, ?_, ?_⟩
  · intro e he
    exact hlog e he
  · intro h9
    have hdne : dts ≠ [] := by
      intro hnil
      subst hnil
      simp at h9
      linarith
    have hcd : countDue [(0 : Rat), 4, 9] dts.sum = 3 := by
      simp only [countDue]
      rw [if_pos (by linarith : (0 : Rat) ≤ dts.sum),
        if_pos (by linarith : (4 : Rat) ≤ dts.sum),
        if_pos (by linarith : (9 : Rat) ≤ dts.sum)]
    rw [hidx, if_neg hdne, hcd]
    refine ⟨rfl, ?_⟩
    rw [hmap, hidx, if_neg hdne, hcd]
    decide

theorem level_waves_fire_once_in_order_witness :
    ((runSched [0, 4, 9] [5, 5]).log.map Prod.fst =
      List.range (runSched [0, 4, 9] [5, 5]).wave_idx) ∧
    (∀ e ∈ (runSched [0, 4, 9] [5, 5]).log, 1 ≤ e.2 ∧ e.2 ≤ ([5, 5] : List Rat).length ∧
      ([(0 : Rat), 4, 9].getD e.1 0 ≤ (([5, 5] : List Rat).take e.2).sum) ∧
      (∀ m, 1 ≤ m → m < e.2 →
        ((([5, 5] : List Rat).take m).sum < [(0 : Rat), 4, 9].getD e.1 0))) ∧
    (9 ≤ ([5, 5] : List Rat).sum → (runSched [0, 4, 9] [5, 5]).wave_idx = 3 ∧
      (runSched [0, 4, 9] [5, 5]).log.map Prod.fst = [0, 1, 2]) :=
  level_waves_fire_once_in_order [5, 5] (by norm_num)

/-! ## Phase scheduler (`level_manager.py`, `LevelManager`)

Phase-level model: loading (`load` / `_load_phase` / `_compile_trigger`),
the hot-path `update` with wave/event consumption and trigger evaluation,
and `_next_phase`.  `_trigger_wave`'s spawning is abstracted to "all
`count` requested spawns succeed" (`EntityRegistry` has the type
registered and construction does not throw), which is what feeds
`_remaining_enemies`.  Scripted event handlers are no-op hooks in the
source (`_event_music` etc.), so firing an event only advances the event
index.  Dict-typed complex triggers and the `_on_entity_destroyed`
callback are outside the claims checked here and are not modelled. -/

inductive LMTrigger where
  | duration
  | allWavesCleared
  | enemyCleared
  | unknown
  deriving DecidableEq, Repr

structure LMWave where
  time : Rat
  count : Nat
  deriving DecidableEq, Repr

structure LMPhase where
  waves : List LMWave
  events : List Rat
  exitTrigger : LMTrigger
  duration : Option Rat
  deriving DecidableEq, Repr

structure LMState where
  phases : List LMPhase
  current_phase_idx : Nat
  phase_timer : Rat
  waiting_for_clear : Bool
  remaining_enemies : Int
  active : Bool
  waves : List LMWave
  wave_idx : Nat
  events : List Rat
  event_idx : Nat
  exit_trigger : LMTrigger
  compiled_duration : Option Rat
  deriving DecidableEq, Repr

/-- `_compile_trigger` (lines 168-193): its side effects, plus the values
captured by the returned closure (for `duration` the phase's duration is
captured at compile time; unknown triggers compile to `lambda: False`). -/
def lmCompileTrigger (s : LMState) : LMState :=
  match s.exit_trigger with
  | .duration =>
    { s with compiled_duration :=
        (s.phases.getD s.current_phase_idx ⟨[], [], .unknown, none⟩).duration }
  | .allWavesCleared => { s with waiting_for_clear := true, remaining_enemies := 0 }
  | _ => s

/-- The compiled trigger evaluated against the current state: the closures
read `self.phase_timer`, `self.wave_idx`, `self.waves` and
`self._remaining_enemies` live.  `enemy_cleared` polls the spawner's
active list (`_has_enemies_alive`), provided as an oracle. -/
def lmEvalTrigger (hasEnemies : Bool) (s : LMState) : Bool :=
  match s.exit_trigger with
  | .duration =>
    match s.compiled_duration with
    | some dur => decide (dur ≤ s.phase_timer)
    | none => false
  | .allWavesCleared =>
    decide (s.waves.length ≤ s.wave_idx) && decide (s.remaining_enemies ≤ 0)
  | .enemyCleared => ! hasEnemies
  | .unknown => false

/-- `_should_check_trigger` (lines 433-447). -/
def lmShouldCheckTrigger (s : LMState) : Bool :=
  match s.exit_trigger with
  | .duration => true
  | .allWavesCleared => decide (s.waves.length ≤ s.wave_idx)
  | .enemyCleared => decide (s.waves.length ≤ s.wave_idx)
  | .unknown => false

/-- `_load_phase` (lines 129-166). -/
def lmLoadPhase (idx : Nat) (s : LMState) : LMState :=
  if h : idx < s.phases.length then
    let phase := s.phases.get ⟨idx, h⟩
    lmCompileTrigger { s with
      waves := phase.waves.mergeSort (fun a b => decide (a.time ≤ b.time))
      wave_idx := 0
      events := phase.events.mergeSort (fun a b => decide (a ≤ b))
      event_idx := 0
      phase_timer := 0
      exit_trigger := phase.exitTrigger }
  else { s with active := false }

/-- `load` (lines 86-103): full reset, then load phase 0 (no phase is
loaded when the phase list is empty). -/
def lmLoad (phases : List LMPhase) : LMState :=
  let s : LMState :=
    { phases := phases, current_phase_idx := 0, phase_timer := 0
      waiting_for_clear := false, remaining_enemies := 0, active := true
      waves := [], wave_idx := 0, events := [], event_idx := 0
      exit_trigger := .unknown, compiled_duration := none }
  if phases = [] then s else lmLoadPhase 0 s

/-- `_next_phase` (lines 195-207). -/
def lmNextPhase (s : LMState) : LMState :=
  let s2 := { s with current_phase_idx := s.current_phase_idx + 1 }
  if s2.current_phase_idx < s2.phases.length then lmLoadPhase s2.current_phase_idx s2
  else { s2 with active := false }

/-- `_update_waves` + `_trigger_wave` (lines 243-248, 261-306): each due
wave spawns its `count` enemies and, when `_waiting_for_clear`, adds the
spawned count to `_remaining_enemies`. -/
def lmFireWaves (s : LMState) : LMState :=
  if h : s.wave_idx < s.waves.length then
    if (s.waves.get ⟨s.wave_idx, h⟩).time ≤ s.phase_timer then
      lmFireWaves { s with
        wave_idx := s.wave_idx + 1
        remaining_enemies :=
          if s.waiting_for_clear then
            s.remaining_enemies + (s.waves.get ⟨s.wave_idx, h⟩).count
          else s.remaining_enemies }
    else s
  else s
termination_by s.waves.length - s.wave_idx
decreasing_by
  simp_wf
  omega

/-- `_update_events` + `_trigger_event` (lines 250-255, 324-343): handlers
are no-op hooks, so only the event index advances. -/
def lmFireEvents (s : LMState) : LMState :=
  if h : s.event_idx < s.events.length then
    if s.events.get ⟨s.event_idx, h⟩ ≤ s.phase_timer then
      lmFireEvents { s with event_idx := s.event_idx + 1 }
    else s
  else s
termination_by s.events.length - s.event_idx
decreasing_by
  simp_wf
  omega

/-- `update` (lines 213-241). -/
def lmUpdate (hasEnemies : Bool) (dt : Rat) (s : LMState) : LMState :=
  if ¬ s.active then s
  else
    let s1 := { s with phase_timer := s.phase_timer + dt }
    let s2 := if s1.wave_idx < s1.waves.length then lmFireWaves s1 else s1
    let s3 := if s2.event_idx < s2.events.length then lmFireEvents s2 else s2
    if lmShouldCheckTrigger s3 && lmEvalTrigger hasEnemies s3 then lmNextPhase s3
    else s3

theorem lmFireEvents_fields (s : LMState) :
    (lmFireEvents s).phases = s.phases ∧
    (lmFireEvents s).current_phase_idx = s.current_phase_idx ∧
    (lmFireEvents s).phase_timer = s.phase_timer ∧
    (lmFireEvents s).waiting_for_clear = s.waiting_for_clear ∧
    (lmFireEvents s).remaining_enemies = s.remaining_enemies ∧
    (lmFireEvents s).active = s.active ∧
    (lmFireEvents s).waves = s.waves ∧
    (lmFireEvents s).wave_idx = s.wave_idx ∧
    (lmFireEvents s).exit_trigger = s.exit_trigger ∧
    (lmFireEvents s).compiled_duration = s.compiled_duration := by
  suffices H : ∀ n (s : LMState), s.events.length - s.event_idx = n →
      ((lmFireEvents s).phases = s.phases ∧
       (lmFireEvents s).current_phase_idx = s.current_phase_idx ∧
       (lmFireEvents s).phase_timer = s.phase_timer ∧
       (lmFireEvents s).waiting_for_clear = s.waiting_for_clear ∧
       (lmFireEvents s).remaining_enemies = s.remaining_enemies ∧
       (lmFireEvents s).active = s.active ∧
       (lmFireEvents s).waves = s.waves ∧
       (lmFireEvents s).wave_idx = s.wave_idx ∧
       (lmFireEvents s).exit_trigger = s.exit_trigger ∧
       (lmFireEvents s).compiled_duration = s.compiled_duration) by
    exact H _ s rfl
  intro n
  induction n with
  | zero =>
    intro s hn
    rw [lmFireEvents]
    rw [dif_neg (by omega)]
    exact ⟨rfl, rfl, rfl, rfl, rfl, rfl, rfl, rfl, rfl, rfl⟩
  | succ n ih =>
    intro s hn
    rw [lmFireEvents]
    by_cases hlt : s.event_idx < s.events.length
    · rw [dif_pos hlt]
      by_cases hdue : s.events.get ⟨s.event_idx, hlt⟩ ≤ s.phase_timer
      · rw [if_pos hdue]
        exact ih _ (by dsimp only; omega)
      · rw [if_neg hdue]
        exact ⟨rfl, rfl, rfl, rfl, rfl, rfl, rfl, rfl, rfl, rfl⟩
    · rw [dif_neg hlt]
      exact ⟨rfl, rfl, rfl, rfl, rfl, rfl, rfl, rfl, rfl, rfl⟩

theorem lmCompileTrigger_proj (s : LMState) :
    (lmCompileTrigger s).current_phase_idx = s.current_phase_idx ∧
    (lmCompileTrigger s).phases = s.phases ∧
    (lmCompileTrigger s).active = s.active := by
  unfold lmCompileTrigger
  cases htr : s.exit_trigger <;> exact ⟨rfl, rfl, rfl⟩

theorem lmLoadPhase_proj (i : Nat) (s : LMState) :
    (lmLoadPhase i s).current_phase_idx = s.current_phase_idx ∧
    (lmLoadPhase i s).phases = s.phases := by
  unfold lmLoadPhase
  by_cases h : i < s.phases.length
  · rw [dif_pos h]
    dsimp only
    obtain ⟨h1, h2, h3⟩ := lmCompileTrigger_proj _
    exact ⟨h1.trans rfl, h2.trans rfl⟩
  · rw [dif_neg h]
    exact ⟨rfl, rfl⟩

/-- When a phase's wave list is empty and exhausted, its
`all_waves_cleared` trigger fires on any update of an active manager:
the phase advances (the wave and event sub-steps cannot re-arm it). -/
theorem lmUpdate_allclear_advances (hasEnemies : Bool) (dt : Rat) (s : LMState)
    (hact : s.active = true) (hwaves : s.waves = [])
    (hrem : s.remaining_enemies ≤ 0)
    (htr : s.exit_trigger = LMTrigger.allWavesCleared) :
    (lmUpdate hasEnemies dt s).current_phase_idx = s.current_phase_idx + 1 ∧
    (¬ (s.current_phase_idx + 1 < s.phases.length) →
      (lmUpdate hasEnemies dt s).active = false) := by
  have key : ∀ s3 : LMState, s3.phases = s.phases →
      s3.current_phase_idx = s.current_phase_idx →
      s3.remaining_enemies = s.remaining_enemies →
      s3.waves = s.waves → s3.wave_idx = s.wave_idx →
      s3.exit_trigger = s.exit_trigger →
      ((if lmShouldCheckTrigger s3 && lmEvalTrigger hasEnemies s3
          then lmNextPhase s3 else s3).current_phase_idx =
        s.current_phase_idx + 1 ∧
      (¬ (s.current_phase_idx + 1 < s.phases.length) →
        (if lmShouldCheckTrigger s3 && lmEvalTrigger hasEnemies s3
          then lmNextPhase s3 else s3).active = false)) := by
    intro s3 k1 k2 k3 k4 k5 k6
    have hcheck : lmShouldCheckTrigger s3 = true := by
      unfold lmShouldCheckTrigger
      rw [k6, htr, k4, k5, hwaves]
      simp
    have heval : lmEvalTrigger hasEnemies s3 = true := by
      unfold lmEvalTrigger
      rw [k6, htr, k4, k5, k3, hwaves]
      simp [hrem]
    rw [hcheck, heval]
    simp only [Bool.and_self, if_true]
    unfold lmNextPhase
    dsimp only
    simp only [k1, k2]
    by_cases hnext : s.current_phase_idx + 1 < s.phases.length
    · rw [if_pos hnext]
      constructor
      · rw [(lmLoadPhase_proj (s.current_phase_idx + 1) _).1]
      · intro hcon
        exact absurd hnext hcon
    · rw [if_neg hnext]
      exact ⟨rfl, fun _ => rfl⟩
  unfold lmUpdate
  rw [if_neg (by simp [hact])]
  dsimp only
  have hcond : ¬ (s.wave_idx < s.waves.length) := by simp [hwaves]
  rw [if_neg hcond]
  dsimp only
  by_cases hev : s.event_idx < s.events.length
  · rw [if_pos hev]
    obtain ⟨f1, f2, f3, f4, f5, f6, f7, f8, f9, f10⟩ :=
      lmFireEvents_fields { s with phase_timer := s.phase_timer + dt }
    exact key _ f1 f2 f5 f7 f8 f9
  · rw [if_neg hev]
    exact key _ rfl rfl rfl rfl rfl rfl

/-- C5: a loaded phase with an empty wave list and exit trigger
`"all_waves_cleared"` completes on the first `LevelManager.update` tick:
the compiled trigger evaluates true (wave index already exhausted,
remaining-enemy count zero), so the scheduler advances past phase 0 —
loading phase 1 when one exists, or ending the level — instead of waiting
forever. -/
theorem empty_wave_phase_advances (p0 : LMPhase) (rest : List LMPhase)
    (hW : p0.waves = []) (hT : p0.exitTrigger = LMTrigger.allWavesCleared)
    (hasEnemies : Bool) (dt : Rat) :
    (lmLoad (p0 :: rest)).current_phase_idx = 0 ∧
    (lmLoad (p0 :: rest)).active = true ∧
    (lmUpdate hasEnemies dt (lmLoad (p0 :: rest))).current_phase_idx = 1 ∧
    (rest = [] → (lmUpdate hasEnemies dt (lmLoad (p0 :: rest))).active = false) := by
  have hL : lmLoad (p0 :: rest) =
      { phases := p0 :: rest, current_phase_idx := 0, phase_timer := 0
        waiting_for_clear := true, remaining_enemies := 0, active := true
        waves := [], wave_idx := 0
        events := p0.events.mergeSort (fun a b => decide (a ≤ b)), event_idx := 0
        exit_trigger := .allWavesCleared, compiled_duration := none } := by
    unfold lmLoad
    rw [if_neg (by simp)]
    unfold lmLoadPhase
    rw [dif_pos (by simp)]
    have hget : ((p0 :: rest).get ⟨0, by simp⟩) = p0 := rfl
    rw [hget]
    dsimp only
    rw [hW, hT]
    rw [List.mergeSort_nil]
    rfl
  obtain ⟨hadv, hend⟩ := lmUpdate_allclear_advances hasEnemies dt (lmLoad (p0 :: rest))
    (by rw [hL]) (by rw [hL]) (by rw [hL]) (by rw [hL])
  refine ⟨by rw [hL], by rw [hL], ?_, ?_⟩
  · rw [hadv, hL]
  · intro hrest
    subst hrest
    apply hend
    rw [hL]
    simp

theorem empty_wave_phase_advances_witness :
    (lmLoad [⟨[], [], LMTrigger.allWavesCleared, none⟩]).current_phase_idx = 0 ∧
    (lmLoad [⟨[], [], LMTrigger.allWavesCleared, none⟩]).active = true ∧
    (lmUpdate false 1
      (lmLoad [⟨[], [], LMTrigger.allWavesCleared, none⟩])).current_phase_idx = 1 ∧
    (([] : List LMPhase) = [] →
      (lmUpdate false 1
        (lmLoad [⟨[], [], LMTrigger.allWavesCleared, none⟩])).active = false) :=
  empty_wave_phase_advances ⟨[], [], .allWavesCleared, none⟩ [] rfl rfl false 1

/-!
### Entity pooling: SpawnManager and BulletManager (claims C2, C7)

`src/systems/level/spawn_manager.py` and `src/systems/combat/bullet_manager.py`
manage active entity lists plus pools of recycled, inactive objects. Entities
are modelled by their identities (`id(...)` values) as `Nat`; the managers'
dict/list state becomes total functions and lists. An entity's `update(dt)`
call is modelled by an oracle pair: `raises e` tells whether the call raises,
and `f e` gives the `death_state` the entity sets on itself when it returns
normally (its other effects — movement, firing — are outside the model).
`updLog` records the ids whose `update` was actually invoked, in order.
-/

/-- Pointwise function update, modelling a dict store `d[a] = b`. -/
def upd {α β : Type} [DecidableEq α] (g : α → β) (a : α) (b : β) : α → β :=
  fun x => if x = a then b else g x

/-- Pool key `(category, type_name)` of `SpawnManager.pools`. -/
abbrev SMKey := String × String

/-- State of `SpawnManager`: active `entities`, per-key `pools` and
`pool_enabled` dicts, each entity's pool key (fixed at creation, and equal to
the key `_return_to_pool` derives from the class name), each entity's
`death_state`, the invoked-update log, and the fresh-id supply. -/
structure SMState where
  entities : List Nat
  pools : SMKey → List Nat
  pool_enabled : SMKey → Bool
  keyOf : Nat → SMKey
  deathOf : Nat → Life
  updLog : List Nat
  nextId : Nat

/-- `SpawnManager.__init__`: no entities, empty pools, pooling disabled. -/
def smInit : SMState :=
  ⟨[], fun _ => [], fun _ => false, fun _ => ("", ""), fun _ => Life.dead, [], 0⟩

/-- `SpawnManager.spawn` (lines 67-111): if pooling is enabled for the key,
`_get_from_pool` pops the last pooled entity (`list.pop()`), `reset` revives it
(`BaseEntity.reset` sets `death_state = ALIVE`; every entity class inherits it,
so the missing-`reset` fallback is unreachable); otherwise
`EntityRegistry.create` builds a fresh object (`createOk = false` models it
returning `None`, in which case `spawn` returns without appending). The
spawned entity is appended to `self.entities`. -/
def smSpawn (k : SMKey) (createOk : Bool) (s : SMState) : SMState :=
  match (if s.pool_enabled k then (s.pools k).getLast? else none) with
  | some e =>
      { s with pools := upd s.pools k (s.pools k).dropLast,
               deathOf := upd s.deathOf e Life.alive,
               entities := s.entities ++ [e] }
  | none =>
      if createOk then
        { s with entities := s.entities ++ [s.nextId],
                 keyOf := upd s.keyOf s.nextId k,
                 deathOf := upd s.deathOf s.nextId Life.alive,
                 nextId := s.nextId + 1 }
      else s

/-- `SpawnManager._prewarm_pool`: create `n` fresh entities, mark each
`death_state = DEAD`, and append them to the key's pool (creation assumed to
succeed for a registered type). -/
def smPrewarmGo (k : SMKey) : Nat → SMState → SMState
  | 0, s => s
  | n + 1, s =>
      smPrewarmGo k n
        { s with pools := upd s.pools k (s.pools k ++ [s.nextId]),
                 keyOf := upd s.keyOf s.nextId k,
                 deathOf := upd s.deathOf s.nextId Life.dead,
                 nextId := s.nextId + 1 }

/-- `SpawnManager.enable_pooling`: set `pool_enabled[key] = True`
(`pools.setdefault` is implicit in the total-function model) and prewarm. -/
def smEnablePooling (k : SMKey) (prewarm : Nat) (s : SMState) : SMState :=
  smPrewarmGo k prewarm { s with pool_enabled := upd s.pool_enabled k true }

/-- Loop body of `SpawnManager.update` (lines 189-202): each entity with
`death_state < DEAD` has `update(dt)` invoked. There is NO try/except here: a
raising entity aborts the whole pass, leaving the state as at the raise; the
Boolean result records whether the exception escaped. -/
def smUpdateGo (raises : Nat → Bool) (f : Nat → Life) :
    List Nat → SMState → SMState × Bool
  | [], s => (s, false)
  | e :: rest, s =>
      if (s.deathOf e).toNat < DEADv then
        if raises e then
          ({ s with updLog := s.updLog ++ [e] }, true)
        else
          smUpdateGo raises f rest
            { s with updLog := s.updLog ++ [e], deathOf := upd s.deathOf e (f e) }
      else
        smUpdateGo raises f rest s

/-- `SpawnManager.update`: early return on an empty entity list, else the loop. -/
def smUpdate (raises : Nat → Bool) (f : Nat → Life) (s : SMState) : SMState × Bool :=
  if s.entities = [] then (s, false) else smUpdateGo raises f s.entities s

/-- `SpawnManager._return_to_pool`: if pooling is enabled for the entity's key,
set `death_state = DEAD` and append it to that pool; otherwise do nothing. -/
def smReturnToPool (e : Nat) (s : SMState) : SMState :=
  if s.pool_enabled (s.keyOf e) then
    { s with deathOf := upd s.deathOf e Life.dead,
             pools := upd s.pools (s.keyOf e) (s.pools (s.keyOf e) ++ [e]) }
  else s

/-- Loop of `SpawnManager.cleanup`: the in-place compaction
(`self.entities[i] = e; i += 1` / `del self.entities[i:]`) keeps entities with
`death_state < DEAD` in order and hands the rest to `_return_to_pool` (the
`on_entity_destroyed` callback fired first only touches the LevelManager's
counters, not this state). Reads precede all overwrites at lower indices, so
iterating the original list is faithful. -/
def smCleanupGo : List Nat → SMState → List Nat → SMState
  | [], s, kept => { s with entities := kept }
  | e :: rest, s, kept =>
      if (s.deathOf e).toNat < DEADv then smCleanupGo rest s (kept ++ [e])
      else smCleanupGo rest (smReturnToPool e s) kept

/-- `SpawnManager.cleanup` with its early exit on an empty list. -/
def smCleanup (s : SMState) : SMState :=
  if s.entities = [] then s else smCleanupGo s.entities s []

/-- Loop of `SpawnManager.reset`: every entity is marked DEAD and offered to
its pool. -/
def smResetGo : List Nat → SMState → SMState
  | [], s => s
  | e :: rest, s =>
      smResetGo rest (smReturnToPool e { s with deathOf := upd s.deathOf e Life.dead })

/-- `SpawnManager.reset`: pool every entity, then `entities.clear()`. -/
def smReset (s : SMState) : SMState :=
  { smResetGo s.entities s with entities := [] }

/-- One public `SpawnManager` operation. -/
inductive SMOp where
  | spawn (k : SMKey) (createOk : Bool)
  | enablePooling (k : SMKey) (prewarm : Nat)
  | update (raises : Nat → Bool) (f : Nat → Life)
  | cleanup
  | reset

/-- Apply one operation (for `update`, the state reached when the pass ends or
the exception escapes). -/
def smStep (s : SMState) (op : SMOp) : SMState :=
  match op with
  | .spawn k ok => smSpawn k ok s
  | .enablePooling k n => smEnablePooling k n s
  | .update raises f => (smUpdate raises f s).1
  | .cleanup => smCleanup s
  | .reset => smReset s

/-- Run a sequence of operations from a fresh `SpawnManager`. -/
def smRun (ops : List SMOp) : SMState :=
  ops.foldl smStep smInit

/-- State of `BulletManager`: `active` bullets, the recycling `pool`, each
bullet's `death_state`, the invoked-update log, and the fresh-id supply. -/
structure BMState where
  active : List Nat
  pool : List Nat
  deathOf : Nat → Life
  updLog : List Nat
  nextId : Nat

/-- `BulletManager.prewarm_pool`: create `n` bullets, mark each
`death_state = DEAD`, append to the pool. -/
def bmPrewarmGo : Nat → BMState → BMState
  | 0, s => s
  | n + 1, s =>
      bmPrewarmGo n
        { s with pool := s.pool ++ [s.nextId],
                 deathOf := upd s.deathOf s.nextId Life.dead,
                 nextId := s.nextId + 1 }

/-- `BulletManager.__init__`: empty lists, then `prewarm_pool(owner="player",
count=50)`. -/
def bmInit : BMState :=
  bmPrewarmGo 50 ⟨[], [], fun _ => Life.dead, [], 0⟩

/-- `BulletManager.spawn` via `_get_bullet`: reuse `pool.pop()` (last element,
revived by `_reset_bullet` with `death_state = ALIVE`) or construct a fresh
`StraightBullet`; either way append to `active`. -/
def bmSpawn (s : BMState) : BMState :=
  match s.pool.getLast? with
  | some b =>
      { s with pool := s.pool.dropLast,
               deathOf := upd s.deathOf b Life.alive,
               active := s.active ++ [b] }
  | none =>
      { s with active := s.active ++ [s.nextId],
               deathOf := upd s.deathOf s.nextId Life.alive,
               nextId := s.nextId + 1 }

/-- `BulletManager.spawn_custom`: always constructs a fresh bullet (the custom
class, or `StraightBullet` if that constructor raises) and appends it to
`active`; the pool is never consulted. -/
def bmSpawnCustom (s : BMState) : BMState :=
  { s with active := s.active ++ [s.nextId],
           deathOf := upd s.deathOf s.nextId Life.alive,
           nextId := s.nextId + 1 }

/-- Loop of `BulletManager.update` (lines 167-197), carrying the `next_active`
accumulator. `bullet.update(dt)` sits in a try/except: a raising bullet is
marked DEAD, unregistered (collision registry not modelled) and pooled, and the
loop continues. Otherwise the lifecycle check keeps the bullet, or marks it
DEAD and pools it. -/
def bmUpdateGo (raises : Nat → Bool) (f : Nat → Life) (offscreen : Nat → Bool) :
    List Nat → BMState → List Nat → BMState
  | [], s, acc => { s with active := acc }
  | b :: rest, s, acc =>
      if raises b then
        bmUpdateGo raises f offscreen rest
          { s with updLog := s.updLog ++ [b],
                   deathOf := upd s.deathOf b Life.dead,
                   pool := s.pool ++ [b] } acc
      else
        if (upd s.deathOf b (f b) b).toNat < DEADv ∧ offscreen b = false then
          bmUpdateGo raises f offscreen rest
            { s with updLog := s.updLog ++ [b],
                     deathOf := upd s.deathOf b (f b) } (acc ++ [b])
        else
          bmUpdateGo raises f offscreen rest
            { s with updLog := s.updLog ++ [b],
                     deathOf := upd (upd s.deathOf b (f b)) b Life.dead,
                     pool := s.pool ++ [b] } acc

/-- `BulletManager.update`: run the loop over `active` with an empty
`next_active`, then install the accumulator as the new `active`. -/
def bmUpdate (raises : Nat → Bool) (f : Nat → Life) (offscreen : Nat → Bool)
    (s : BMState) : BMState :=
  bmUpdateGo raises f offscreen s.active s []

/-- Loop of `BulletManager.cleanup`: keep bullets with `death_state < DEAD`,
pool the rest (their `death_state` is already DEAD and is not rewritten). -/
def bmCleanupGo : List Nat → BMState → List Nat → BMState
  | [], s, kept => { s with active := kept }
  | b :: rest, s, kept =>
      if (s.deathOf b).toNat < DEADv then bmCleanupGo rest s (kept ++ [b])
      else bmCleanupGo rest { s with pool := s.pool ++ [b] } kept

/-- `BulletManager.cleanup`. -/
def bmCleanup (s : BMState) : BMState :=
  bmCleanupGo s.active s []

/-- One public `BulletManager` operation. -/
inductive BMOp where
  | spawn
  | spawnCustom
  | prewarm (count : Nat)
  | update (raises : Nat → Bool) (f : Nat → Life) (offscreen : Nat → Bool)
  | cleanup

/-- Apply one `BulletManager` operation. -/
def bmStep (s : BMState) (op : BMOp) : BMState :=
  match op with
  | .spawn => bmSpawn s
  | .spawnCustom => bmSpawnCustom s
  | .prewarm n => bmPrewarmGo n s
  | .update raises f offscreen => bmUpdate raises f offscreen s
  | .cleanup => bmCleanup s

/-- Run a sequence of operations from a fresh `BulletManager`. -/
def bmRun (ops : List BMOp) : BMState :=
  ops.foldl bmStep bmInit

/-- The C2 pool invariant for `SpawnManager`: no duplicate ids in the active
list or any pool, no id both pooled and active, no id in two pools, every
pooled id DEAD, and all ids drawn from the supply. -/
structure SMInv (s : SMState) : Prop where
  nodupA : s.entities.Nodup
  nodupP : ∀ k, (s.pools k).Nodup
  disjAP : ∀ k e, e ∈ s.pools k → e ∉ s.entities
  disjPP : ∀ k k2 e, e ∈ s.pools k → e ∈ s.pools k2 → k = k2
  poolDead : ∀ k e, e ∈ s.pools k → s.deathOf e = Life.dead
  bndA : ∀ e ∈ s.entities, e < s.nextId
  bndP : ∀ k e, e ∈ s.pools k → e < s.nextId

/-- The C2 pool invariant for `BulletManager`. -/
structure BMInv (s : BMState) : Prop where
  nodupA : s.active.Nodup
  nodupP : s.pool.Nodup
  disj : ∀ b ∈ s.pool, b ∉ s.active
  poolDead : ∀ b ∈ s.pool, s.deathOf b = Life.dead
  bndA : ∀ b ∈ s.active, b < s.nextId
  bndP : ∀ b ∈ s.pool, b < s.nextId
theorem upd_self {α β : Type} [DecidableEq α] (g : α → β) (a : α) (b : β) :
    upd g a b a = b := by
  simp [upd]

theorem upd_ne {α β : Type} [DecidableEq α] (g : α → β) (a : α) (b : β) (x : α)
    (h : x ≠ a) : upd g a b x = g x := by
  simp [upd, h]

theorem nodup_append_single {l : List Nat} {a : Nat} (h : l.Nodup) (ha : a ∉ l) :
    (l ++ [a]).Nodup := by
  simp [List.nodup_append, h, ha]

theorem mem_of_getLast? {l : List Nat} {a : Nat} (h : l.getLast? = some a) : a ∈ l := by
  induction l with
  | nil => simp [List.getLast?] at h
  | cons x xs ih =>
      cases hxs : xs with
      | nil =>
          simp [hxs, List.getLast?] at h
          simp [h]
      | cons y ys =>
          subst hxs
          rw [List.getLast?_cons_cons] at h
          exact List.mem_cons_of_mem _ (ih h)

theorem not_mem_dropLast_of_getLast? {l : List Nat} {a : Nat} (hnd : l.Nodup)
    (h : l.getLast? = some a) : a ∉ l.dropLast := by
  have hne : l ≠ [] := by
    intro he
    rw [he] at h
    simp at h
  have hdecomp := List.dropLast_append_getLast hne
  have hlast : l.getLast hne = a := by
    have := List.getLast?_eq_getLast l hne
    rw [this] at h
    exact (Option.some.injEq _ _).mp h
  rw [← hdecomp] at hnd
  rw [List.nodup_append] at hnd
  intro hmem
  exact hnd.2.2 hmem (by simp [hlast])

theorem mem_of_mem_dropLast {l : List Nat} {a : Nat} (h : a ∈ l.dropLast) : a ∈ l :=
  (List.dropLast_sublist l).mem h
theorem smSpawn_inv (k : SMKey) (ok : Bool) (s : SMState) (h : SMInv s) :
    SMInv (smSpawn k ok s) := by
  unfold smSpawn
  cases hm : (if s.pool_enabled k then (s.pools k).getLast? else none) with
  | none =>
      cases ok with
      | false => exact h
      | true =>
          rw [if_pos rfl]
          have hfreshA : s.nextId ∉ s.entities :=
            fun hmem => absurd (h.bndA _ hmem) (lt_irrefl _)
          refine ⟨?_, ?_, ?_, ?_, ?_, ?_, ?_⟩ <;> dsimp only
          · exact nodup_append_single h.nodupA hfreshA
          · exact h.nodupP
          · intro k2 e he hmem
            rw [List.mem_append] at hmem
            rcases hmem with hmem | hmem
            · exact h.disjAP k2 e he hmem
            · simp at hmem
              subst hmem
              exact absurd (h.bndP k2 _ he) (lt_irrefl _)
          · exact h.disjPP
          · intro k2 e he
            have hne : e ≠ s.nextId := Nat.ne_of_lt (h.bndP k2 e he)
            rw [upd_ne _ _ _ _ hne]
            exact h.poolDead k2 e he
          · intro e hmem
            rw [List.mem_append] at hmem
            rcases hmem with hmem | hmem
            · exact Nat.lt_succ_of_lt (h.bndA e hmem)
            · simp at hmem
              subst hmem
              exact Nat.lt_succ_self _
          · intro k2 e he
            exact Nat.lt_succ_of_lt (h.bndP k2 e he)
  | some e =>
      have hpe : (s.pools k).getLast? = some e := by
        by_cases hb : s.pool_enabled k = true
        · rw [if_pos hb] at hm
          exact hm
        · rw [if_neg hb] at hm
          cases hm
      have heme : e ∈ s.pools k := mem_of_getLast? hpe
      have hednl : e ∉ (s.pools k).dropLast :=
        not_mem_dropLast_of_getLast? (h.nodupP k) hpe
      have hsub : ∀ k2 e2, e2 ∈ upd s.pools k (s.pools k).dropLast k2 →
          e2 ∈ s.pools k2 ∧ e2 ≠ e := by
        intro k2 e2 hm2
        by_cases hk : k2 = k
        · subst hk
          rw [upd_self] at hm2
          exact ⟨mem_of_mem_dropLast hm2, fun he2 => hednl (he2 ▸ hm2)⟩
        · rw [upd_ne _ _ _ _ hk] at hm2
          exact ⟨hm2, fun he2 => hk (h.disjPP k2 k e2 hm2 (he2 ▸ heme))⟩
      refine ⟨?_, ?_, ?_, ?_, ?_, ?_, ?_⟩ <;> dsimp only
      · exact nodup_append_single h.nodupA (h.disjAP k e heme)
      · intro k2
        by_cases hk : k2 = k
        · subst hk
          rw [upd_self]
          exact (h.nodupP k2).sublist (List.dropLast_sublist _)
        · rw [upd_ne _ _ _ _ hk]
          exact h.nodupP k2
      · intro k2 e2 he2 hmem
        obtain ⟨hold, hne⟩ := hsub k2 e2 he2
        rw [List.mem_append] at hmem
        rcases hmem with hmem | hmem
        · exact h.disjAP k2 e2 hold hmem
        · simp at hmem
          exact hne hmem
      · intro k2 k3 e2 h2 h3
        exact h.disjPP k2 k3 e2 (hsub k2 e2 h2).1 (hsub k3 e2 h3).1
      · intro k2 e2 he2
        obtain ⟨hold, hne⟩ := hsub k2 e2 he2
        rw [upd_ne _ _ _ _ hne]
        exact h.poolDead k2 e2 hold
      · intro e2 hmem
        rw [List.mem_append] at hmem
        rcases hmem with hmem | hmem
        · exact h.bndA e2 hmem
        · simp at hmem
          rw [hmem]
          exact h.bndP k e heme
      · intro k2 e2 he2
        exact h.bndP k2 e2 (hsub k2 e2 he2).1

theorem smPrewarmGo_inv (k : SMKey) (n : Nat) (s : SMState) (h : SMInv s) :
    SMInv (smPrewarmGo k n s) := by
  induction n generalizing s with
  | zero => exact h
  | succ m ih =>
      rw [smPrewarmGo]
      apply ih
      have hfreshP : ∀ k2, s.nextId ∉ s.pools k2 :=
        fun k2 hm => absurd (h.bndP k2 _ hm) (lt_irrefl _)
      have hfreshA : s.nextId ∉ s.entities :=
        fun hm => absurd (h.bndA _ hm) (lt_irrefl _)
      have hchar : ∀ k2 e, e ∈ upd s.pools k (s.pools k ++ [s.nextId]) k2 →
          e ∈ s.pools k2 ∨ (e = s.nextId ∧ k2 = k) := by
        intro k2 e he
        by_cases hk : k2 = k
        · subst hk
          rw [upd_self, List.mem_append] at he
          rcases he with he | he
          · exact Or.inl he
          · simp at he
            exact Or.inr ⟨he, rfl⟩
        · rw [upd_ne _ _ _ _ hk] at he
          exact Or.inl he
      refine ⟨?_, ?_, ?_, ?_, ?_, ?_, ?_⟩ <;> dsimp only
      · exact h.nodupA
      · intro k2
        by_cases hk : k2 = k
        · subst hk
          rw [upd_self]
          exact nodup_append_single (h.nodupP k2) (hfreshP k2)
        · rw [upd_ne _ _ _ _ hk]
          exact h.nodupP k2
      · intro k2 e he hmem
        rcases hchar k2 e he with hold | ⟨he2, _⟩
        · exact h.disjAP k2 e hold hmem
        · subst he2
          exact hfreshA hmem
      · intro k2 k3 e h2 h3
        rcases hchar k2 e h2 with hold2 | ⟨he2, hk2⟩
        · rcases hchar k3 e h3 with hold3 | ⟨he3, hk3⟩
          · exact h.disjPP k2 k3 e hold2 hold3
          · subst he3
            exact absurd hold2 (hfreshP k2)
        · rcases hchar k3 e h3 with hold3 | ⟨he3, hk3⟩
          · subst he2
            exact absurd hold3 (hfreshP k3)
          · rw [hk2, hk3]
      · intro k2 e he
        rcases hchar k2 e he with hold | ⟨he2, _⟩
        · have hne : e ≠ s.nextId := Nat.ne_of_lt (h.bndP k2 e hold)
          rw [upd_ne _ _ _ _ hne]
          exact h.poolDead k2 e hold
        · subst he2
          rw [upd_self]
      · intro e hmem
        exact Nat.lt_succ_of_lt (h.bndA e hmem)
      · intro k2 e he
        rcases hchar k2 e he with hold | ⟨he2, _⟩
        · exact Nat.lt_succ_of_lt (h.bndP k2 e hold)
        · subst he2
          exact Nat.lt_succ_self _

theorem smEnablePooling_inv (k : SMKey) (n : Nat) (s : SMState) (h : SMInv s) :
    SMInv (smEnablePooling k n s) := by
  unfold smEnablePooling
  exact smPrewarmGo_inv k n _
    ⟨h.nodupA, h.nodupP, h.disjAP, h.disjPP, h.poolDead, h.bndA, h.bndP⟩

theorem smUpdateGo_inv (raises : Nat → Bool) (f : Nat → Life) (l : List Nat)
    (s : SMState) (h : SMInv s) (hl : ∀ k e, e ∈ s.pools k → e ∉ l) :
    SMInv (smUpdateGo raises f l s).1 := by
  induction l generalizing s with
  | nil => exact h
  | cons e rest ih =>
      rw [smUpdateGo]
      by_cases hd : (s.deathOf e).toNat < DEADv
      · rw [if_pos hd]
        by_cases hr : raises e = true
        · rw [if_pos hr]
          exact ⟨h.nodupA, h.nodupP, h.disjAP, h.disjPP, h.poolDead, h.bndA, h.bndP⟩
        · rw [if_neg hr]
          apply ih
          · have hne : ∀ k2 e2, e2 ∈ s.pools k2 → e2 ≠ e :=
              fun k2 e2 h2 heq => hl k2 e2 h2 (heq ▸ List.mem_cons_self e rest)
            refine ⟨h.nodupA, h.nodupP, h.disjAP, h.disjPP, ?_, h.bndA, h.bndP⟩
            intro k2 e2 h2
            dsimp only
            rw [upd_ne _ _ _ _ (hne k2 e2 h2)]
            exact h.poolDead k2 e2 h2
          · intro k2 e2 h2 hmem
            exact hl k2 e2 h2 (List.mem_cons_of_mem _ hmem)
      · rw [if_neg hd]
        apply ih
        · exact h
        · intro k2 e2 h2 hmem
          exact hl k2 e2 h2 (List.mem_cons_of_mem _ hmem)

theorem smUpdate_inv (raises : Nat → Bool) (f : Nat → Life) (s : SMState)
    (h : SMInv s) : SMInv (smUpdate raises f s).1 := by
  unfold smUpdate
  by_cases hemp : s.entities = []
  · rw [if_pos hemp]
    exact h
  · rw [if_neg hemp]
    exact smUpdateGo_inv raises f s.entities s h h.disjAP
theorem smReturnToPool_facts (e : Nat) (s : SMState)
    (hP : ∀ k, (s.pools k).Nodup)
    (hPP : ∀ k k2 e2, e2 ∈ s.pools k → e2 ∈ s.pools k2 → k = k2)
    (hdead : ∀ k e2, e2 ∈ s.pools k → s.deathOf e2 = Life.dead)
    (henotp : ∀ k, e ∉ s.pools k) :
    (∀ k, ((smReturnToPool e s).pools k).Nodup) ∧
    (∀ k k2 e2, e2 ∈ (smReturnToPool e s).pools k →
        e2 ∈ (smReturnToPool e s).pools k2 → k = k2) ∧
    (∀ k e2, e2 ∈ (smReturnToPool e s).pools k →
        (smReturnToPool e s).deathOf e2 = Life.dead) ∧
    (∀ k e2, e2 ∈ (smReturnToPool e s).pools k → e2 ∈ s.pools k ∨ e2 = e) ∧
    (smReturnToPool e s).entities = s.entities ∧
    (smReturnToPool e s).nextId = s.nextId := by
  unfold smReturnToPool
  by_cases hen : s.pool_enabled (s.keyOf e) = true
  · rw [if_pos hen]
    have hchar : ∀ k e2,
        e2 ∈ upd s.pools (s.keyOf e) (s.pools (s.keyOf e) ++ [e]) k →
        e2 ∈ s.pools k ∨ (e2 = e ∧ k = s.keyOf e) := by
      intro k e2 he2
      by_cases hk : k = s.keyOf e
      · subst hk
        rw [upd_self, List.mem_append] at he2
        rcases he2 with he2 | he2
        · exact Or.inl he2
        · simp at he2
          exact Or.inr ⟨he2, rfl⟩
      · rw [upd_ne _ _ _ _ hk] at he2
        exact Or.inl he2
    refine ⟨?_, ?_, ?_, ?_, rfl, rfl⟩ <;> dsimp only
    · intro k
      by_cases hk : k = s.keyOf e
      · subst hk
        rw [upd_self]
        exact nodup_append_single (hP _) (henotp _)
      · rw [upd_ne _ _ _ _ hk]
        exact hP k
    · intro k k2 e2 h2 h3
      rcases hchar k e2 h2 with hold2 | ⟨he2, hk2⟩
      · rcases hchar k2 e2 h3 with hold3 | ⟨he3, hk3⟩
        · exact hPP k k2 e2 hold2 hold3
        · subst he3
          exact absurd hold2 (henotp k)
      · rcases hchar k2 e2 h3 with hold3 | ⟨he3, hk3⟩
        · subst he2
          exact absurd hold3 (henotp k2)
        · rw [hk2, hk3]
    · intro k e2 h2
      rcases hchar k e2 h2 with hold | ⟨he2, _⟩
      · have hne : e2 ≠ e := fun heq => henotp k (heq ▸ hold)
        rw [upd_ne _ _ _ _ hne]
        exact hdead k e2 hold
      · subst he2
        rw [upd_self]
    · intro k e2 h2
      rcases hchar k e2 h2 with hold | ⟨he2, _⟩
      · exact Or.inl hold
      · exact Or.inr he2
  · rw [if_neg hen]
    exact ⟨hP, hPP, hdead, fun k e2 h2 => Or.inl h2, rfl, rfl⟩

theorem smCleanupGo_inv (l : List Nat) (s : SMState) (kept : List Nat)
    (hnd : (kept ++ l).Nodup)
    (hP : ∀ k, (s.pools k).Nodup)
    (hdisj : ∀ k e, e ∈ s.pools k → e ∉ kept ++ l)
    (hPP : ∀ k k2 e, e ∈ s.pools k → e ∈ s.pools k2 → k = k2)
    (hdead : ∀ k e, e ∈ s.pools k → s.deathOf e = Life.dead)
    (hbA : ∀ e ∈ kept ++ l, e < s.nextId)
    (hbP : ∀ k e, e ∈ s.pools k → e < s.nextId) :
    SMInv (smCleanupGo l s kept) := by
  induction l generalizing s kept with
  | nil =>
      rw [smCleanupGo]
      rw [List.append_nil] at hnd
      refine ⟨hnd, hP, ?_, hPP, hdead, ?_, hbP⟩
      · intro k e he hmem
        exact hdisj k e he (List.mem_append_left _ hmem)
      · intro e hmem
        exact hbA e (List.mem_append_left _ hmem)
  | cons e rest ih =>
      rw [smCleanupGo]
      by_cases hd : (s.deathOf e).toNat < DEADv
      · rw [if_pos hd]
        apply ih
        · rw [← List.append_cons]
          exact hnd
        · exact hP
        · intro k e2 h2
          rw [← List.append_cons]
          exact hdisj k e2 h2
        · exact hPP
        · exact hdead
        · intro e2 hmem
          rw [← List.append_cons] at hmem
          exact hbA e2 hmem
        · exact hbP
      · rw [if_neg hd]
        have henotp : ∀ k, e ∉ s.pools k :=
          fun k hm => hdisj k e hm (List.mem_append_right _ (List.mem_cons_self e rest))
        obtain ⟨f1, f2, f3, f4, f5, f6⟩ := smReturnToPool_facts e s hP hPP hdead henotp
        have hnd2 : (kept ++ rest).Nodup :=
          hnd.sublist ((List.sublist_cons_self e rest).append_left kept)
        have hmemext : ∀ e2 : Nat, e2 ∈ kept ++ rest → e2 ∈ kept ++ e :: rest := by
          intro e2 hmem
          rw [List.mem_append] at hmem ⊢
          rcases hmem with hmem | hmem
          · exact Or.inl hmem
          · exact Or.inr (List.mem_cons_of_mem _ hmem)
        have henl : e ∉ kept ++ rest := by
          intro hmem
          rw [List.nodup_append] at hnd
          rw [List.mem_append] at hmem
          rcases hmem with hmem | hmem
          · exact hnd.2.2 hmem (List.mem_cons_self e rest)
          · exact (List.nodup_cons.mp hnd.2.1).1 hmem
        apply ih
        · exact hnd2
        · exact f1
        · intro k e2 h2 hmem
          rcases f4 k e2 h2 with hold | he2
          · exact hdisj k e2 hold (hmemext e2 hmem)
          · subst he2
            exact henl hmem
        · exact f2
        · exact f3
        · intro e2 hmem
          rw [f6]
          exact hbA e2 (hmemext e2 hmem)
        · intro k e2 h2
          rw [f6]
          rcases f4 k e2 h2 with hold | he2
          · exact hbP k e2 hold
          · rw [he2]
            exact hbA e (List.mem_append_right _ (List.mem_cons_self e rest))

theorem smCleanup_inv (s : SMState) (h : SMInv s) : SMInv (smCleanup s) := by
  unfold smCleanup
  by_cases hemp : s.entities = []
  · rw [if_pos hemp]
    exact h
  · rw [if_neg hemp]
    exact smCleanupGo_inv s.entities s [] h.nodupA h.nodupP h.disjAP h.disjPP
      h.poolDead h.bndA h.bndP

theorem smResetGo_facts (l : List Nat) (s : SMState)
    (hndl : l.Nodup)
    (hP : ∀ k, (s.pools k).Nodup)
    (hdisj : ∀ k e, e ∈ s.pools k → e ∉ l)
    (hPP : ∀ k k2 e, e ∈ s.pools k → e ∈ s.pools k2 → k = k2)
    (hdead : ∀ k e, e ∈ s.pools k → s.deathOf e = Life.dead)
    (hbl : ∀ e ∈ l, e < s.nextId)
    (hbP : ∀ k e, e ∈ s.pools k → e < s.nextId) :
    (∀ k, ((smResetGo l s).pools k).Nodup) ∧
    (∀ k k2 e, e ∈ (smResetGo l s).pools k → e ∈ (smResetGo l s).pools k2 → k = k2) ∧
    (∀ k e, e ∈ (smResetGo l s).pools k → (smResetGo l s).deathOf e = Life.dead) ∧
    (∀ k e, e ∈ (smResetGo l s).pools k → e < (smResetGo l s).nextId) := by
  induction l generalizing s with
  | nil => exact ⟨hP, hPP, hdead, hbP⟩
  | cons e rest ih =>
      rw [smResetGo]
      have hdead1 : ∀ k e2, e2 ∈ s.pools k →
          (upd s.deathOf e Life.dead) e2 = Life.dead := by
        intro k e2 h2
        by_cases he2 : e2 = e
        · subst he2
          rw [upd_self]
        · rw [upd_ne _ _ _ _ he2]
          exact hdead k e2 h2
      have henotp : ∀ k, e ∉ s.pools k :=
        fun k hm => hdisj k e hm (List.mem_cons_self e rest)
      obtain ⟨f1, f2, f3, f4, f5, f6⟩ :=
        smReturnToPool_facts e { s with deathOf := upd s.deathOf e Life.dead }
          hP hPP hdead1 henotp
      apply ih
      · exact (List.nodup_cons.mp hndl).2
      · exact f1
      · intro k e2 h2 hmem
        rcases f4 k e2 h2 with hold | he2
        · exact hdisj k e2 hold (List.mem_cons_of_mem _ hmem)
        · subst he2
          exact (List.nodup_cons.mp hndl).1 hmem
      · exact f2
      · exact f3
      · intro e2 hmem
        rw [f6]
        exact hbl e2 (List.mem_cons_of_mem _ hmem)
      · intro k e2 h2
        rw [f6]
        rcases f4 k e2 h2 with hold | he2
        · exact hbP k e2 hold
        · rw [he2]
          exact hbl e (List.mem_cons_self e rest)

theorem smReset_inv (s : SMState) (h : SMInv s) : SMInv (smReset s) := by
  obtain ⟨f1, f2, f3, f4⟩ := smResetGo_facts s.entities s h.nodupA h.nodupP
    h.disjAP h.disjPP h.poolDead h.bndA h.bndP
  exact ⟨List.nodup_nil, f1,
    fun k e he hm => absurd hm (List.not_mem_nil e),
    f2, f3,
    fun e hm => absurd hm (List.not_mem_nil e),
    f4⟩

theorem smStep_inv (s : SMState) (op : SMOp) (h : SMInv s) : SMInv (smStep s op) := by
  cases op with
  | spawn k ok => exact smSpawn_inv k ok s h
  | enablePooling k n => exact smEnablePooling_inv k n s h
  | update raises f => exact smUpdate_inv raises f s h
  | cleanup => exact smCleanup_inv s h
  | reset => exact smReset_inv s h

theorem smInit_inv : SMInv smInit := by
  refine ⟨?_, ?_, ?_, ?_, ?_, ?_, ?_⟩ <;> simp [smInit]

theorem smRun_inv (ops : List SMOp) : SMInv (smRun ops) := by
  unfold smRun
  have key : ∀ (l : List SMOp) (s : SMState), SMInv s → SMInv (List.foldl smStep s l) := by
    intro l
    induction l with
    | nil => exact fun s h => h
    | cons op rest ih => exact fun s h => ih _ (smStep_inv s op h)
  exact key ops smInit smInit_inv
theorem life_dead_of_not_lt {x : Life} (h : ¬ (x.toNat < DEADv)) : x = Life.dead := by
  cases x
  · exact absurd (by decide) h
  · exact absurd (by decide) h
  · rfl

theorem bmPrewarmGo_inv (n : Nat) (s : BMState) (h : BMInv s) :
    BMInv (bmPrewarmGo n s) := by
  induction n generalizing s with
  | zero => exact h
  | succ m ih =>
      rw [bmPrewarmGo]
      apply ih
      have hfreshP : s.nextId ∉ s.pool :=
        fun hm => absurd (h.bndP _ hm) (lt_irrefl _)
      have hfreshA : s.nextId ∉ s.active :=
        fun hm => absurd (h.bndA _ hm) (lt_irrefl _)
      refine ⟨?_, ?_, ?_, ?_, ?_, ?_⟩ <;> dsimp only
      · exact h.nodupA
      · exact nodup_append_single h.nodupP hfreshP
      · intro b hb hmem
        rw [List.mem_append] at hb
        rcases hb with hb | hb
        · exact h.disj b hb hmem
        · simp at hb
          subst hb
          exact hfreshA hmem
      · intro b hb
        rw [List.mem_append] at hb
        rcases hb with hb | hb
        · have hne : b ≠ s.nextId := Nat.ne_of_lt (h.bndP b hb)
          rw [upd_ne _ _ _ _ hne]
          exact h.poolDead b hb
        · simp at hb
          rw [hb, upd_self]
      · intro b hb
        exact Nat.lt_succ_of_lt (h.bndA b hb)
      · intro b hb
        rw [List.mem_append] at hb
        rcases hb with hb | hb
        · exact Nat.lt_succ_of_lt (h.bndP b hb)
        · simp at hb
          rw [hb]
          exact Nat.lt_succ_self _

theorem bmSpawn_inv (s : BMState) (h : BMInv s) : BMInv (bmSpawn s) := by
  unfold bmSpawn
  cases hm : s.pool.getLast? with
  | none =>
      have hfreshA : s.nextId ∉ s.active :=
        fun hmem => absurd (h.bndA _ hmem) (lt_irrefl _)
      refine ⟨?_, ?_, ?_, ?_, ?_, ?_⟩ <;> dsimp only
      · exact nodup_append_single h.nodupA hfreshA
      · exact h.nodupP
      · intro b hb hmem
        rw [List.mem_append] at hmem
        rcases hmem with hmem | hmem
        · exact h.disj b hb hmem
        · simp at hmem
          rw [hmem] at hb
          exact absurd (h.bndP _ hb) (lt_irrefl _)
      · intro b hb
        have hne : b ≠ s.nextId := Nat.ne_of_lt (h.bndP b hb)
        rw [upd_ne _ _ _ _ hne]
        exact h.poolDead b hb
      · intro b hmem
        rw [List.mem_append] at hmem
        rcases hmem with hmem | hmem
        · exact Nat.lt_succ_of_lt (h.bndA b hmem)
        · simp at hmem
          rw [hmem]
          exact Nat.lt_succ_self _
      · intro b hb
        exact Nat.lt_succ_of_lt (h.bndP b hb)
  | some b =>
      have hbm : b ∈ s.pool := mem_of_getLast? hm
      have hbnd : b ∉ s.pool.dropLast := not_mem_dropLast_of_getLast? h.nodupP hm
      refine ⟨?_, ?_, ?_, ?_, ?_, ?_⟩ <;> dsimp only
      · exact nodup_append_single h.nodupA (h.disj b hbm)
      · exact h.nodupP.sublist (List.dropLast_sublist _)
      · intro b2 hb2 hmem
        have hold : b2 ∈ s.pool := mem_of_mem_dropLast hb2
        rw [List.mem_append] at hmem
        rcases hmem with hmem | hmem
        · exact h.disj b2 hold hmem
        · simp at hmem
          rw [hmem] at hb2
          exact hbnd hb2
      · intro b2 hb2
        have hold : b2 ∈ s.pool := mem_of_mem_dropLast hb2
        have hne : b2 ≠ b := fun heq => hbnd (heq ▸ hb2)
        rw [upd_ne _ _ _ _ hne]
        exact h.poolDead b2 hold
      · intro b2 hmem
        rw [List.mem_append] at hmem
        rcases hmem with hmem | hmem
        · exact h.bndA b2 hmem
        · simp at hmem
          rw [hmem]
          exact h.bndP b hbm
      · intro b2 hb2
        exact h.bndP b2 (mem_of_mem_dropLast hb2)

theorem bmSpawnCustom_inv (s : BMState) (h : BMInv s) : BMInv (bmSpawnCustom s) := by
  have hfreshA : s.nextId ∉ s.active :=
    fun hmem => absurd (h.bndA _ hmem) (lt_irrefl _)
  refine ⟨?_, ?_, ?_, ?_, ?_, ?_⟩ <;> dsimp only [bmSpawnCustom]
  · exact nodup_append_single h.nodupA hfreshA
  · exact h.nodupP
  · intro b hb hmem
    rw [List.mem_append] at hmem
    rcases hmem with hmem | hmem
    · exact h.disj b hb hmem
    · simp at hmem
      rw [hmem] at hb
      exact absurd (h.bndP _ hb) (lt_irrefl _)
  · intro b hb
    have hne : b ≠ s.nextId := Nat.ne_of_lt (h.bndP b hb)
    rw [upd_ne _ _ _ _ hne]
    exact h.poolDead b hb
  · intro b hmem
    rw [List.mem_append] at hmem
    rcases hmem with hmem | hmem
    · exact Nat.lt_succ_of_lt (h.bndA b hmem)
    · simp at hmem
      rw [hmem]
      exact Nat.lt_succ_self _
  · intro b hb
    exact Nat.lt_succ_of_lt (h.bndP b hb)
theorem bmUpdateGo_inv (raises : Nat → Bool) (f : Nat → Life) (offscreen : Nat → Bool)
    (l : List Nat) (s : BMState) (acc : List Nat)
    (hnd : (acc ++ l).Nodup)
    (hp : s.pool.Nodup)
    (hdisj : ∀ b ∈ s.pool, b ∉ acc ++ l)
    (hdead : ∀ b ∈ s.pool, s.deathOf b = Life.dead)
    (hbA : ∀ b ∈ acc ++ l, b < s.nextId)
    (hbP : ∀ b ∈ s.pool, b < s.nextId) :
    BMInv (bmUpdateGo raises f offscreen l s acc) := by
  induction l generalizing s acc with
  | nil =>
      rw [bmUpdateGo]
      rw [List.append_nil] at hnd
      refine ⟨hnd, hp, ?_, hdead, ?_, hbP⟩
      · intro b hb hmem
        exact hdisj b hb (List.mem_append_left _ hmem)
      · intro b hmem
        exact hbA b (List.mem_append_left _ hmem)
  | cons c rest ih =>
      rw [bmUpdateGo]
      have hcnp : c ∉ s.pool :=
        fun hm => hdisj c hm (List.mem_append_right _ (List.mem_cons_self c rest))
      have hcacc : c ∉ acc ∧ c ∉ rest := by
        rw [List.nodup_append] at hnd
        exact ⟨fun hm => hnd.2.2 hm (List.mem_cons_self c rest),
          (List.nodup_cons.mp hnd.2.1).1⟩
      have hmemext : ∀ b : Nat, b ∈ acc ++ rest → b ∈ acc ++ c :: rest := by
        intro b hmem
        rw [List.mem_append] at hmem ⊢
        rcases hmem with hmem | hmem
        · exact Or.inl hmem
        · exact Or.inr (List.mem_cons_of_mem _ hmem)
      have hcne : c ∉ acc ++ rest := by
        intro hmem
        rw [List.mem_append] at hmem
        rcases hmem with hmem | hmem
        · exact hcacc.1 hmem
        · exact hcacc.2 hmem
      by_cases hr : raises c = true
      · rw [if_pos hr]
        apply ih
        · exact hnd.sublist ((List.sublist_cons_self c rest).append_left acc)
        · exact nodup_append_single hp hcnp
        · intro b hb hmem
          dsimp only at hb
          rw [List.mem_append] at hb
          rcases hb with hb | hb
          · exact hdisj b hb (hmemext b hmem)
          · simp at hb
            rw [hb] at hmem
            exact hcne hmem
        · intro b hb
          dsimp only at hb ⊢
          rw [List.mem_append] at hb
          rcases hb with hb | hb
          · have hne : b ≠ c := fun heq => hcnp (heq ▸ hb)
            rw [upd_ne _ _ _ _ hne]
            exact hdead b hb
          · simp at hb
            rw [hb, upd_self]
        · intro b hmem
          exact hbA b (hmemext b hmem)
        · intro b hb
          dsimp only at hb
          rw [List.mem_append] at hb
          rcases hb with hb | hb
          · exact hbP b hb
          · simp at hb
            rw [hb]
            exact hbA c (List.mem_append_right _ (List.mem_cons_self c rest))
      · rw [if_neg hr]
        by_cases hc : (upd s.deathOf c (f c) c).toNat < DEADv ∧ offscreen c = false
        · rw [if_pos hc]
          apply ih
          · rw [List.append_cons] at hnd
            exact hnd
          · exact hp
          · intro b hb hmem
            rw [← List.append_cons] at hmem
            exact hdisj b hb hmem
          · intro b hb
            dsimp only
            have hne : b ≠ c := fun heq => hcnp (heq ▸ hb)
            rw [upd_ne _ _ _ _ hne]
            exact hdead b hb
          · intro b hmem
            rw [← List.append_cons] at hmem
            exact hbA b hmem
          · intro b hb
            exact hbP b hb
        · rw [if_neg hc]
          apply ih
          · exact hnd.sublist ((List.sublist_cons_self c rest).append_left acc)
          · exact nodup_append_single hp hcnp
          · intro b hb hmem
            dsimp only at hb
            rw [List.mem_append] at hb
            rcases hb with hb | hb
            · exact hdisj b hb (hmemext b hmem)
            · simp at hb
              rw [hb] at hmem
              exact hcne hmem
          · intro b hb
            dsimp only at hb ⊢
            rw [List.mem_append] at hb
            rcases hb with hb | hb
            · have hne : b ≠ c := fun heq => hcnp (heq ▸ hb)
              rw [upd_ne _ _ _ _ hne, upd_ne _ _ _ _ hne]
              exact hdead b hb
            · simp at hb
              rw [hb, upd_self]
          · intro b hmem
            exact hbA b (hmemext b hmem)
          · intro b hb
            dsimp only at hb
            rw [List.mem_append] at hb
            rcases hb with hb | hb
            · exact hbP b hb
            · simp at hb
              rw [hb]
              exact hbA c (List.mem_append_right _ (List.mem_cons_self c rest))

theorem bmUpdate_inv (raises : Nat → Bool) (f : Nat → Life) (offscreen : Nat → Bool)
    (s : BMState) (h : BMInv s) : BMInv (bmUpdate raises f offscreen s) := by
  unfold bmUpdate
  exact bmUpdateGo_inv raises f offscreen s.active s [] h.nodupA h.nodupP
    h.disj h.poolDead h.bndA h.bndP

theorem bmCleanupGo_inv (l : List Nat) (s : BMState) (kept : List Nat)
    (hnd : (kept ++ l).Nodup)
    (hp : s.pool.Nodup)
    (hdisj : ∀ b ∈ s.pool, b ∉ kept ++ l)
    (hdead : ∀ b ∈ s.pool, s.deathOf b = Life.dead)
    (hbA : ∀ b ∈ kept ++ l, b < s.nextId)
    (hbP : ∀ b ∈ s.pool, b < s.nextId) :
    BMInv (bmCleanupGo l s kept) := by
  induction l generalizing s kept with
  | nil =>
      rw [bmCleanupGo]
      rw [List.append_nil] at hnd
      refine ⟨hnd, hp, ?_, hdead, ?_, hbP⟩
      · intro b hb hmem
        exact hdisj b hb (List.mem_append_left _ hmem)
      · intro b hmem
        exact hbA b (List.mem_append_left _ hmem)
  | cons c rest ih =>
      rw [bmCleanupGo]
      have hcnp : c ∉ s.pool :=
        fun hm => hdisj c hm (List.mem_append_right _ (List.mem_cons_self c rest))
      have hcne : c ∉ kept ++ rest := by
        rw [List.nodup_append] at hnd
        intro hmem
        rw [List.mem_append] at hmem
        rcases hmem with hmem | hmem
        · exact hnd.2.2 hmem (List.mem_cons_self c rest)
        · exact (List.nodup_cons.mp hnd.2.1).1 hmem
      have hmemext : ∀ b : Nat, b ∈ kept ++ rest → b ∈ kept ++ c :: rest := by
        intro b hmem
        rw [List.mem_append] at hmem ⊢
        rcases hmem with hmem | hmem
        · exact Or.inl hmem
        · exact Or.inr (List.mem_cons_of_mem _ hmem)
      by_cases hd : (s.deathOf c).toNat < DEADv
      · rw [if_pos hd]
        apply ih
        · rw [List.append_cons] at hnd
          exact hnd
        · exact hp
        · intro b hb hmem
          rw [← List.append_cons] at hmem
          exact hdisj b hb hmem
        · exact hdead
        · intro b hmem
          rw [← List.append_cons] at hmem
          exact hbA b hmem
        · exact hbP
      · rw [if_neg hd]
        apply ih
        · exact hnd.sublist ((List.sublist_cons_self c rest).append_left kept)
        · exact nodup_append_single hp hcnp
        · intro b hb hmem
          dsimp only at hb
          rw [List.mem_append] at hb
          rcases hb with hb | hb
          · exact hdisj b hb (hmemext b hmem)
          · simp at hb
            rw [hb] at hmem
            exact hcne hmem
        · intro b hb
          dsimp only at hb ⊢
          rw [List.mem_append] at hb
          rcases hb with hb | hb
          · exact hdead b hb
          · simp at hb
            rw [hb]
            exact life_dead_of_not_lt hd
        · intro b hmem
          exact hbA b (hmemext b hmem)
        · intro b hb
          dsimp only at hb
          rw [List.mem_append] at hb
          rcases hb with hb | hb
          · exact hbP b hb
          · simp at hb
            rw [hb]
            exact hbA c (List.mem_append_right _ (List.mem_cons_self c rest))

theorem bmCleanup_inv (s : BMState) (h : BMInv s) : BMInv (bmCleanup s) := by
  unfold bmCleanup
  exact bmCleanupGo_inv s.active s [] h.nodupA h.nodupP h.disj h.poolDead h.bndA h.bndP

theorem bmStep_inv (s : BMState) (op : BMOp) (h : BMInv s) : BMInv (bmStep s op) := by
  cases op with
  | spawn => exact bmSpawn_inv s h
  | spawnCustom => exact bmSpawnCustom_inv s h
  | prewarm n => exact bmPrewarmGo_inv n s h
  | update raises f offscreen => exact bmUpdate_inv raises f offscreen s h
  | cleanup => exact bmCleanup_inv s h

theorem bmInit_inv : BMInv bmInit := by
  apply bmPrewarmGo_inv
  refine ⟨?_, ?_, ?_, ?_, ?_, ?_⟩ <;> simp

theorem bmRun_inv (ops : List BMOp) : BMInv (bmRun ops) := by
  unfold bmRun
  have key : ∀ (l : List BMOp) (s : BMState), BMInv s → BMInv (List.foldl bmStep s l) := by
    intro l
    induction l with
    | nil => exact fun s h => h
    | cons op rest ih => exact fun s h => ih _ (bmStep_inv s op h)
  exact key ops bmInit bmInit_inv
/-- C2: after any sequence of SpawnManager operations (spawn,
enable_pooling/prewarm, update, cleanup, reset) and any sequence of
BulletManager operations (spawn, spawn_custom, prewarm_pool, update, cleanup),
every managed entity appears in at most one place — never both active and
pooled, never in two pools, with no duplicates — and every pooled entity has
`death_state == DEAD`. -/
theorem pool_invariants_hold (smOps : List SMOp) (bmOps : List BMOp) :
    SMInv (smRun smOps) ∧ BMInv (bmRun bmOps) :=
  ⟨smRun_inv smOps, bmRun_inv bmOps⟩

theorem bmUpdateGo_updLog (raises : Nat → Bool) (f : Nat → Life)
    (offscreen : Nat → Bool) (l : List Nat) :
    ∀ (s : BMState) (acc : List Nat),
      (bmUpdateGo raises f offscreen l s acc).updLog = s.updLog ++ l := by
  induction l with
  | nil =>
      intro s acc
      rw [bmUpdateGo]
      exact (List.append_nil _).symm
  | cons c rest ih =>
      intro s acc
      rw [bmUpdateGo]
      by_cases hr : raises c = true
      · rw [if_pos hr, ih]
        simp
      · rw [if_neg hr]
        by_cases hc : (upd s.deathOf c (f c) c).toNat < DEADv ∧ offscreen c = false
        · rw [if_pos hc, ih]
          simp
        · rw [if_neg hc, ih]
          simp

theorem bmUpdateGo_outside (raises : Nat → Bool) (f : Nat → Life)
    (offscreen : Nat → Bool) (l : List Nat) :
    ∀ (s : BMState) (acc : List Nat) (x : Nat), x ∉ l →
      (bmUpdateGo raises f offscreen l s acc).deathOf x = s.deathOf x ∧
      (x ∈ s.pool → x ∈ (bmUpdateGo raises f offscreen l s acc).pool) ∧
      (x ∉ acc → x ∉ (bmUpdateGo raises f offscreen l s acc).active) := by
  induction l with
  | nil =>
      intro s acc x _
      rw [bmUpdateGo]
      exact ⟨rfl, fun h => h, fun h => h⟩
  | cons c rest ih =>
      intro s acc x hx
      have hxr : x ∉ rest := fun h => hx (List.mem_cons_of_mem _ h)
      have hxc : x ≠ c := fun h => hx (h ▸ List.mem_cons_self c rest)
      rw [bmUpdateGo]
      by_cases hr : raises c = true
      · rw [if_pos hr]
        obtain ⟨d1, d2, d3⟩ := ih _ acc x hxr
        refine ⟨?_, ?_, d3⟩
        · rw [d1]
          dsimp only
          rw [upd_ne _ _ _ _ hxc]
        · intro hxp
          exact d2 (List.mem_append_left _ hxp)
      · rw [if_neg hr]
        by_cases hc : (upd s.deathOf c (f c) c).toNat < DEADv ∧ offscreen c = false
        · rw [if_pos hc]
          obtain ⟨d1, d2, d3⟩ := ih { s with updLog := s.updLog ++ [c], deathOf := upd s.deathOf c (f c) } (acc ++ [c]) x hxr
          refine ⟨?_, d2, ?_⟩
          · rw [d1]
            dsimp only
            rw [upd_ne _ _ _ _ hxc]
          · intro hxacc
            apply d3
            intro hmem
            rw [List.mem_append] at hmem
            rcases hmem with hmem | hmem
            · exact hxacc hmem
            · simp at hmem
              exact hxc hmem
        · rw [if_neg hc]
          obtain ⟨d1, d2, d3⟩ := ih _ acc x hxr
          refine ⟨?_, ?_, d3⟩
          · rw [d1]
            dsimp only
            rw [upd_ne _ _ _ _ hxc, upd_ne _ _ _ _ hxc]
          · intro hxp
            exact d2 (List.mem_append_left _ hxp)

theorem bmUpdateGo_raised (raises : Nat → Bool) (f : Nat → Life)
    (offscreen : Nat → Bool) (l : List Nat) :
    ∀ (s : BMState) (acc : List Nat), l.Nodup →
      ∀ b, b ∈ l → b ∉ acc → raises b = true →
        (bmUpdateGo raises f offscreen l s acc).deathOf b = Life.dead ∧
        b ∈ (bmUpdateGo raises f offscreen l s acc).pool ∧
        b ∉ (bmUpdateGo raises f offscreen l s acc).active := by
  induction l with
  | nil =>
      intro s acc _ b hb
      simp at hb
  | cons c rest ih =>
      intro s acc hnd b hb hba hrb
      have hcr : c ∉ rest := (List.nodup_cons.mp hnd).1
      have hndr : rest.Nodup := (List.nodup_cons.mp hnd).2
      rw [bmUpdateGo]
      rcases List.mem_cons.mp hb with hbc | hbr
      · subst hbc
        rw [if_pos hrb]
        obtain ⟨d1, d2, d3⟩ := bmUpdateGo_outside raises f offscreen rest _ acc b hcr
        refine ⟨?_, ?_, d3 hba⟩
        · rw [d1]
          dsimp only
          rw [upd_self]
        · apply d2
          exact List.mem_append_right _ (by simp)
      · have hbc : b ≠ c := fun h => hcr (h ▸ hbr)
        by_cases hr : raises c = true
        · rw [if_pos hr]
          exact ih _ acc hndr b hbr hba hrb
        · rw [if_neg hr]
          by_cases hcnd : (upd s.deathOf c (f c) c).toNat < DEADv ∧ offscreen c = false
          · rw [if_pos hcnd]
            refine ih _ (acc ++ [c]) hndr b hbr ?_ hrb
            intro hmem
            rw [List.mem_append] at hmem
            rcases hmem with hmem | hmem
            · exact hba hmem
            · simp at hmem
              exact hbc hmem
          · rw [if_neg hcnd]
            exact ih _ acc hndr b hbr hba hrb

theorem smUpdateGo_escapes (raises : Nat → Bool) (f : Nat → Life) (l : List Nat) :
    ∀ s : SMState, (∃ e ∈ l, (s.deathOf e).toNat < DEADv ∧ raises e = true) →
      (smUpdateGo raises f l s).2 = true := by
  induction l with
  | nil =>
      intro s h
      obtain ⟨e, he, _⟩ := h
      simp at he
  | cons c rest ih =>
      intro s h
      rw [smUpdateGo]
      by_cases hd : (s.deathOf c).toNat < DEADv
      · rw [if_pos hd]
        by_cases hr : raises c = true
        · rw [if_pos hr]
        · rw [if_neg hr]
          apply ih
          obtain ⟨e, he, hlive, hre⟩ := h
          rcases List.mem_cons.mp he with hec | her
          · exact absurd (hec ▸ hre) hr
          · have henc : e ≠ c := fun h2 => hr (h2 ▸ hre)
            refine ⟨e, her, ?_, hre⟩
            dsimp only
            rw [upd_ne _ _ _ _ henc]
            exact hlive
      · rw [if_neg hd]
        apply ih
        obtain ⟨e, he, hlive, hre⟩ := h
        rcases List.mem_cons.mp he with hec | her
        · exact absurd (hec ▸ hlive) hd
        · exact ⟨e, her, hlive, hre⟩

theorem smUpdateGo_no_kill (raises : Nat → Bool) (f : Nat → Life)
    (hf : ∀ e, f e ≠ Life.dead) (l : List Nat) :
    ∀ (s : SMState) (x : Nat),
      (smUpdateGo raises f l s).1.deathOf x = Life.dead →
      s.deathOf x = Life.dead := by
  induction l with
  | nil => exact fun s x h => h
  | cons c rest ih =>
      intro s x h
      rw [smUpdateGo] at h
      by_cases hd : (s.deathOf c).toNat < DEADv
      · rw [if_pos hd] at h
        by_cases hr : raises c = true
        · rw [if_pos hr] at h
          exact h
        · rw [if_neg hr] at h
          have h2 := ih _ x h
          dsimp only at h2
          by_cases hxc : x = c
          · subst hxc
            rw [upd_self] at h2
            exact absurd h2 (hf x)
          · rw [upd_ne _ _ _ _ hxc] at h2
            exact h2
      · rw [if_neg hd] at h
        exact ih _ x h

theorem smUpdate_escapes (raises : Nat → Bool) (f : Nat → Life) (s : SMState)
    (h : ∃ e ∈ s.entities, (s.deathOf e).toNat < DEADv ∧ raises e = true) :
    (smUpdate raises f s).2 = true := by
  unfold smUpdate
  have hne : s.entities ≠ [] := by
    obtain ⟨e, he, _⟩ := h
    intro h0
    rw [h0] at he
    simp at he
  rw [if_neg hne]
  exact smUpdateGo_escapes raises f s.entities s h

theorem smUpdate_no_kill (raises : Nat → Bool) (f : Nat → Life) (s : SMState)
    (hf : ∀ e, f e ≠ Life.dead) (x : Nat)
    (h : (smUpdate raises f s).1.deathOf x = Life.dead) :
    s.deathOf x = Life.dead := by
  unfold smUpdate at h
  by_cases hemp : s.entities = []
  · rw [if_pos hemp] at h
    exact h
  · rw [if_neg hemp] at h
    exact smUpdateGo_no_kill raises f hf s.entities s x h

/-- C7 counterexample: `SpawnManager.update` (lines 189-202) has no try/except
around `entity.update(dt)`. With two live entities where the first raises, the
exception escapes the pass (`true` flag), the raising entity is NOT marked
DEAD (it stays ALIVE), and the second entity's `update` is never invoked (the
log stops at `[0]`) — contradicting the claim that both managers catch, log,
mark DEAD and continue. -/
theorem spawn_update_fault_counterexample :
    ((smUpdate (fun e => decide (e = 0)) (fun _ => Life.alive)
        (smRun [SMOp.spawn ("enemy", "straight") true,
                SMOp.spawn ("enemy", "straight") true])).2 = true) ∧
    ((smUpdate (fun e => decide (e = 0)) (fun _ => Life.alive)
        (smRun [SMOp.spawn ("enemy", "straight") true,
                SMOp.spawn ("enemy", "straight") true])).1.deathOf 0 = Life.alive) ∧
    ((smUpdate (fun e => decide (e = 0)) (fun _ => Life.alive)
        (smRun [SMOp.spawn ("enemy", "straight") true,
                SMOp.spawn ("enemy", "straight") true])).1.updLog = [0]) :=
  ⟨rfl, rfl, rfl⟩

/-- C7 (amended): only `BulletManager.update` isolates entity-local faults: it
invokes `update` on every active bullet (the log covers all of `active`), and
a raising bullet is marked DEAD, pooled, and dropped from `active` while the
pass continues. `SpawnManager.update` does NOT catch: if any live entity
raises, the exception escapes the pass, and no entity is forcibly marked DEAD
by the pass itself (when the entities' own updates do not set DEAD). -/
theorem update_fault_isolation
    (raises : Nat → Bool) (f : Nat → Life) (offscreen : Nat → Bool)
    (sB : BMState) (sS : SMState)
    (hnd : sB.active.Nodup) (hf : ∀ e, f e ≠ Life.dead) :
    ((bmUpdate raises f offscreen sB).updLog = sB.updLog ++ sB.active) ∧
    (∀ b ∈ sB.active, raises b = true →
        (bmUpdate raises f offscreen sB).deathOf b = Life.dead ∧
        b ∈ (bmUpdate raises f offscreen sB).pool ∧
        b ∉ (bmUpdate raises f offscreen sB).active) ∧
    ((∃ e ∈ sS.entities, (sS.deathOf e).toNat < DEADv ∧ raises e = true) →
        (smUpdate raises f sS).2 = true) ∧
    (∀ e, (smUpdate raises f sS).1.deathOf e = Life.dead →
        sS.deathOf e = Life.dead) := by
  refine ⟨?_, ?_, ?_, ?_⟩
  · exact bmUpdateGo_updLog raises f offscreen sB.active sB []
  · intro b hb hrb
    exact bmUpdateGo_raised raises f offscreen sB.active sB [] hnd b hb
      (List.not_mem_nil b) hrb
  · intro h
    exact smUpdate_escapes raises f sS h
  · intro e
    exact smUpdate_no_kill raises f sS hf e

/-- Witness for the C7 amended theorem at a concrete manager state: bullets
`[7, 8]` with bullet 7 raising, and a spawn manager with a single live raising
entity. -/
theorem update_fault_isolation_witness :
    ((bmUpdate (fun b => decide (b = 7)) (fun _ => Life.dying) (fun _ => false)
        (BMState.mk [7, 8] [] (fun _ => Life.alive) [] 9)).updLog = [7, 8]) ∧
    ((bmUpdate (fun b => decide (b = 7)) (fun _ => Life.dying) (fun _ => false)
        (BMState.mk [7, 8] [] (fun _ => Life.alive) [] 9)).deathOf 7 = Life.dead) ∧
    ((smUpdate (fun b => decide (b = 7)) (fun _ => Life.dying)
        (SMState.mk [7] (fun _ => []) (fun _ => false) (fun _ => ("", ""))
          (fun _ => Life.alive) [] 8)).2 = true) := by
  obtain ⟨h1, h2, h3, h4⟩ :=
    @update_fault_isolation (fun b => decide (b = 7)) (fun _ => Life.dying)
      (fun _ => false)
      (BMState.mk [7, 8] [] (fun _ => Life.alive) [] 9)
      (SMState.mk [7] (fun _ => []) (fun _ => false) (fun _ => ("", ""))
        (fun _ => Life.alive) [] 8)
      (by decide) (fun _ => (by decide : Life.dying ≠ Life.dead))
  refine ⟨h1, ?_, ?_⟩
  · exact (h2 7 (by decide) (by decide)).1
  · exact h3 ⟨7, by decide, by decide, by decide⟩

end SDP
